import Mathlib

/-!
# Verification of the crimedb slippy-tile aggregation engine

Shallow embedding of the core functions of `src/crimedb/www.py`:
`slippy_tile_coordinates_from_point`, `point_from_slippy_tile_coordinates`,
`grid_from_crimes`, `grid_add`, `zgrid_from_grid`, `rzgrid_from_zgrid`,
`rzgrid_to_geojson`.

Modelling conventions:

* Python dicts are modelled as association lists with strictly increasing
  integer keys (`alSorted`).  Python dict equality ignores insertion order,
  so the sorted list is a canonical form of the dict's value; `alGet` is
  subscript lookup, `alSet` is subscript assignment.  All the loops in the
  source combine their iterations with commutative updates (sums, or writes
  to pairwise distinct keys), so folding in key order produces the same
  dict value as Python's insertion-order iteration.
* `defaultdict` auto-vivification is modelled explicitly: a read of a
  possibly missing key either uses `Option.getD` (when the surrounding code
  only reads) or `alViv`/`zgViv` (when the claim under scrutiny concerns
  the keys inserted into an input by a bare read).
* Python `int` arithmetic on coordinates and counts is ℤ.  `int(x / 2)`
  (true division then truncation toward zero) is `pydiv2`, i.e. `Int.tdiv`.
* The float computations of the tile projector are idealized as exact real
  arithmetic: `math.log`/`tan`/`cos`/`atan`/`sinh` become the corresponding
  `Real` functions and Python `int()` on a float becomes `pyint`
  (truncation toward zero of a real).
* The projection inside `grid_from_crimes` is kept as an explicit function
  parameter `proj` (the code calls `slippy_tile_coordinates_from_point`,
  whose float values the integer-level claims do not depend on).
-/

namespace CrimeDB

/-- Python `int()` applied to a real number: truncation toward zero. -/
noncomputable def pyint (v : ℝ) : ℤ := if 0 ≤ v then ⌊v⌋ else ⌈v⌉

/-- `www.slippy_tile_coordinates_from_point` (lines 31-44), float arithmetic
idealized over ℝ: `n = 2.0 ** zoom`, `xtile = int((lon + 180)/360 * n)`,
`ytile = int((1 - log(tan(lat_rad) + 1/cos(lat_rad))/pi)/2 * n)` with
`lat_rad = radians(lat)`. -/
noncomputable def slippy_tile_coordinates_from_point (lon lat : ℝ) (zoom : ℕ) : ℤ × ℤ :=
  let n : ℝ := 2 ^ zoom
  let xtile := pyint ((lon + 180) / 360 * n)
  let lat_rad := lat * (Real.pi / 180)
  let ytile := pyint ((1 - Real.log (Real.tan lat_rad + 1 / Real.cos lat_rad) / Real.pi) / 2 * n)
  (xtile, ytile)

/-- `www.point_from_slippy_tile_coordinates` (lines 48-53): returns the
north-west corner `(lon_deg, lat_deg)` of tile `(x, y)` at zoom `z`. -/
noncomputable def point_from_slippy_tile_coordinates (x y : ℤ) (z : ℕ) : ℝ × ℝ :=
  let n : ℝ := 2 ^ z
  let lon_deg := (x : ℝ) / n * 360 - 180
  let lat_rad := Real.arctan (Real.sinh (Real.pi * (1 - 2 * (y : ℝ) / n)))
  (lon_deg, lat_rad * (180 / Real.pi))

/-- Association list keyed by ℤ: the model of one nesting level of a
Python dict. -/
abbrev AL (α : Type) := List (ℤ × α)

/-- Dict lookup `d[k]` (as an `Option`; `none` means the key is absent). -/
def alGet {α : Type} : AL α → ℤ → Option α
  | [], _ => none
  | (k, v) :: t, x => if x = k then some v else alGet t x

/-- Dict assignment `d[k] = v`, keeping keys sorted. -/
def alSet {α : Type} : AL α → ℤ → α → AL α
  | [], x, v => [(x, v)]
  | (k, w) :: t, x, v =>
    if x < k then (x, v) :: (k, w) :: t
    else if x = k then (x, v) :: t
    else (k, w) :: alSet t x v

/-- A bare `defaultdict` read `d[k]`: inserts `dflt` when `k` is absent. -/
def alViv {α : Type} (l : AL α) (k : ℤ) (dflt : α) : AL α :=
  match alGet l k with
  | some _ => l
  | none => alSet l k dflt

/-- Canonical-form invariant: keys strictly increase along the list. -/
def alSorted {α : Type} (l : AL α) : Prop :=
  l.Pairwise (fun p q => p.1 < q.1)

/-- Sum of `f` over all stored values. -/
def alSum {α : Type} (f : α → ℤ) (l : AL α) : ℤ :=
  (l.map (fun p => f p.2)).sum

/-- Inner level of a grid: `y ↦ count`. -/
abbrev YCounts := AL ℤ

/-- A grid `x ↦ y ↦ count` (the `{x => {y => count}}` dicts of www.py). -/
abbrev Grid := AL YCounts

/-- A zoom pyramid `z ↦ Grid`. -/
abbrev ZGrid := AL Grid

/-- A retile structure `z ↦ x ↦ y ↦ (xx ↦ yy ↦ count)`. -/
abbrev RZGrid := AL (AL (AL Grid))

/-- Lookup of one cell of a grid, `none` when the cell is absent. -/
def cellGet (g : Grid) (x y : ℤ) : Option ℤ :=
  (alGet g x).bind (fun ys => alGet ys y)

/-- Cell count with the defaultdict convention that absence is 0. -/
def cellGetD (g : Grid) (x y : ℤ) : ℤ :=
  (cellGet g x y).getD 0

/-- `grid[x][y] += c` on a `defaultdict(partial(defaultdict, int))`:
vivifies row `x`, then adds `c` to the (0-defaulted) entry at `y`. -/
def gridInc (g : Grid) (x y c : ℤ) : Grid :=
  let ys := (alGet g x).getD []
  alSet g x (alSet ys y ((alGet ys y).getD 0 + c))

/-- `grid[x][y] = c`: vivifies row `x` and assigns the entry at `y`. -/
def gridSet (g : Grid) (x y c : ℤ) : Grid :=
  let ys := (alGet g x).getD []
  alSet g x (alSet ys y c)

/-- Both nesting levels of the grid are in canonical sorted form. -/
def gridSorted (g : Grid) : Prop :=
  alSorted g ∧ ∀ p ∈ g, alSorted p.2

/-- No vacuous rows: every stored `x` key carries a nonempty inner dict.
Grids built by repeated increment (the data model's construction) always
satisfy this. -/
def gridNE (g : Grid) : Prop :=
  ∀ p ∈ g, p.2 ≠ []

/-- Well-formed grid value: canonical order and no vacuous rows. -/
def gridWF (g : Grid) : Prop :=
  gridSorted g ∧ gridNE g

/-- All stored counts are positive (the sparsity invariant of the data
model: absence is the only representation of 0). -/
def gridPos (g : Grid) : Prop :=
  ∀ p ∈ g, ∀ q ∈ p.2, 0 < q.2

/-- All stored coordinates are non-negative (true of every grid produced
from slippy tile coordinates). -/
def gridNonneg (g : Grid) : Prop :=
  ∀ p ∈ g, 0 ≤ p.1 ∧ ∀ q ∈ p.2, 0 ≤ q.1

/-- Sum of the counts of one row. -/
def ySum (ys : YCounts) : ℤ := (ys.map Prod.snd).sum

/-- Total count stored in a grid. -/
def gridSum (g : Grid) : ℤ := (g.map (fun p => ySum p.2)).sum

/-- Whether the grid stores at least one cell (a row with a nonempty
inner dict). -/
def hasCell (g : Grid) : Bool := g.any (fun p => !p.2.isEmpty)

/-- `www.grid_from_crimes` (lines 56-71): folds `grid[x][y] += 1` over the
crime records, with `(x, y) = proj (lon, lat)`.  `proj` stands for the
call `slippy_tile_coordinates_from_point(lon, lat, zoom)`; it is kept as a
parameter because the claims about this function hold for every value of
the float projection. -/
def grid_from_crimes (proj : ℝ × ℝ → ℤ × ℤ) (crimes : List (ℝ × ℝ)) : Grid :=
  crimes.foldl (fun g c => gridInc g (proj c).1 (proj c).2 1) []

/-- One iteration of the outer loop of `grid_add`: fold `grid[x][y] += count`
over all entries of one input grid. -/
def gridAddOne (acc : Grid) (g : Grid) : Grid :=
  g.foldl (fun a p => p.2.foldl (fun a q => gridInc a p.1 q.1 q.2) a) acc

/-- `www.grid_add` (lines 74-86): sums the counts of all grids passed as
arguments into a fresh grid. -/
def grid_add (grids : List Grid) : Grid :=
  grids.foldl gridAddOne []

/-- The grid stored at pyramid level `z`, empty when the level is absent
(reads of levels in www.py always tolerate absence via the defaultdict). -/
def zgGet (zg : ZGrid) (z : ℤ) : Grid := (alGet zg z).getD []

/-- `zgrid[z][x][y] = c`. -/
def zgSetCell (zg : ZGrid) (z x y c : ℤ) : ZGrid :=
  alSet zg z (gridSet (zgGet zg z) x y c)

/-- `zgrid[z][x][y] += c`. -/
def zgIncCell (zg : ZGrid) (z x y c : ℤ) : ZGrid :=
  alSet zg z (gridInc (zgGet zg z) x y c)

/-- A bare read `zgrid[z]` on the outer defaultdict: vivifies level `z`
with an empty grid when absent. -/
def zgViv (zg : ZGrid) (z : ℤ) : ZGrid :=
  match alGet zg z with
  | some _ => zg
  | none => alSet zg z []

/-- Lines 104-106 of `zgrid_from_grid`: populate level `zoom` by assigning
every cell of the input grid. -/
def seedZ (grid : Grid) (zoom : ℤ) : ZGrid :=
  grid.foldl (fun acc p => p.2.foldl (fun acc q => zgSetCell acc zoom p.1 q.1 q.2) acc) []

/-- Python `int(x / 2)`: true division followed by truncation toward zero,
i.e. `Int.tdiv x 2` (this is floor division only for `0 ≤ x`). -/
def pydiv2 (x : ℤ) : ℤ := Int.tdiv x 2

/-- One iteration (level `z`) of the roll-up loop (lines 108-111): read
`zgrid[z]` (vivifying it) and add every cell's count into its parent cell
at level `z - 1`. -/
def rollStep (zg : ZGrid) (z : ℤ) : ZGrid :=
  let lvl := zgGet zg z
  lvl.foldl
    (fun acc p => p.2.foldl
      (fun acc q => zgIncCell acc (z - 1) (pydiv2 p.1) (pydiv2 q.1) q.2) acc)
    (zgViv zg z)

/-- The roll-up loop `for z in range(zoom, min_zoom, -1)`, with the number
of remaining iterations as fuel. -/
def rollLoop (zg : ZGrid) (z : ℤ) : ℕ → ZGrid
  | 0 => zg
  | k + 1 => rollLoop (rollStep zg z) (z - 1) k

/-- `www.zgrid_from_grid` (lines 89-113): seed level `zoom` with the input
grid, then roll up level by level down to `min_zoom`. -/
def zgrid_from_grid (grid : Grid) (zoom min_zoom : ℤ) : ZGrid :=
  rollLoop (seedZ grid zoom) zoom (zoom - min_zoom).toNat

/-- The asserted precondition of `zgrid_from_grid` (lines 95-96): the call
raises `AssertionError` iff this is `false`. -/
def zgrid_from_grid_ok (zoom min_zoom : ℤ) : Bool :=
  decide (min_zoom < zoom) && decide (0 ≤ min_zoom)

/-- Every level of the pyramid satisfies the positivity invariant. -/
def zgPos (zg : ZGrid) : Prop := ∀ p ∈ zg, gridPos p.2

/-- Every level of the pyramid (read through `zgGet`) is in canonical
sorted form. -/
def zgSortedAll (zg : ZGrid) : Prop := ∀ z : ℤ, gridSorted (zgGet zg z)

/-- The accumulation of one grid into the next-coarser level, starting from
`acc`: for every cell `(x, y)` of `f`, `acc[int(x/2)][int(y/2)] += count`. -/
def coarsenFrom (acc : Grid) (f : Grid) : Grid :=
  f.foldl
    (fun a p => p.2.foldl (fun a q => gridInc a (pydiv2 p.1) (pydiv2 q.1) q.2) a)
    acc

/-- The grid one level coarser than `f`, as built by the roll-up loop. -/
def coarsen (f : Grid) : Grid := coarsenFrom [] f

/-- `coarsen` iterated `k` times. -/
def coarsenIter : ℕ → Grid → Grid
  | 0, f => f
  | k + 1, f => coarsenIter k (coarsen f)

/-- Follows the spec's words (claim C1): the coarser level is obtained by
adding each cell `(x, y)`'s count into cell `(floor(x/2), floor(y/2))`;
`⌊x/2⌋` is `x / 2` with ℤ's floor division. -/
def coarsenSpecFrom (acc : Grid) (f : Grid) : Grid :=
  f.foldl
    (fun a p => p.2.foldl (fun a q => gridInc a (p.1 / 2) (q.1 / 2) q.2) a)
    acc

/-- Follows the spec's words (claim C1): one floor-division roll-up step. -/
def coarsenSpec (f : Grid) : Grid := coarsenSpecFrom [] f

/-- Python `max(zg.keys())` (order-independent; meaningful only for a
nonempty dict, where Python would otherwise raise `ValueError`). -/
def keyMax (zg : ZGrid) : ℤ :=
  zg.foldl (fun m p => max m p.1) ((zg.headD ((0 : ℤ), ([] : Grid))).1)

/-- Python `min(zg.keys())` (used only to state claim C7's bound). -/
def keyMin (zg : ZGrid) : ℤ :=
  zg.foldl (fun m p => min m p.1) ((zg.headD ((0 : ℤ), ([] : Grid))).1)

/-- Lookup of one sub-cell of the retile structure:
`rzgrid[z][x][y][sx][sy]`, `none` when any key on the path is absent. -/
def rzGet (rz : RZGrid) (z x y sx sy : ℤ) : Option ℤ :=
  (alGet rz z).bind fun l1 =>
    (alGet l1 x).bind fun l2 =>
      (alGet l2 y).bind fun b => cellGet b sx sy

/-- `rzgrid[z][x][y][sx][sy] = c` with defaultdict vivification of the
four intermediate levels. -/
def rz5Set (rz : RZGrid) (z x y sx sy c : ℤ) : RZGrid :=
  let l1 := (alGet rz z).getD []
  let l2 := (alGet l1 x).getD []
  let b := (alGet l2 y).getD []
  alSet rz z (alSet l1 x (alSet l2 y (gridSet b sx sy c)))

/-- Lines 139-152 of `rzgrid_from_zgrid`: for one coarse cell `(x, y)` at
base zoom `z`, scan the fine grid, skip cells outside
`[x*p, (x+1)*p - 1] × [y*p, (y+1)*p - 1]`, and copy the rest re-indexed to
the range's origin. -/
def rzStepXY (rz : RZGrid) (fine : Grid) (p z x y : ℤ) : RZGrid :=
  fine.foldl
    (fun acc q =>
      if q.1 < x * p ∨ (x + 1) * p - 1 < q.1 then acc
      else q.2.foldl
        (fun acc r =>
          if r.1 < y * p ∨ (y + 1) * p - 1 < r.1 then acc
          else rz5Set acc z x y (q.1 - x * p) (r.1 - y * p) r.2)
        acc)
    rz

/-- One iteration (base zoom `z`) of the outer loop of `rzgrid_from_zgrid`:
run `rzStepXY` for every cell present at level `z`. -/
def rzStepZ (zg : ZGrid) (depth : ℕ) (rz : RZGrid) (z : ℤ) : RZGrid :=
  (zgGet zg z).foldl
    (fun acc p => p.2.foldl
      (fun acc q => rzStepXY acc (zgGet zg (z + depth)) (2 ^ depth) z p.1 q.1) acc)
    rz

/-- The list `[0, 1, ..., n-1]` as integers (Python `range(0, n)`). -/
def intRange0 (n : ℕ) : List ℤ := (List.range n).map Int.ofNat

/-- `www.rzgrid_from_zgrid` (lines 116-154): for every base zoom `z` from 0
to `max(zgrid.keys()) - zoom_depth`, build the retile blocks of level `z`.
(The input's defaultdict is vivified by the reads; this does not change any
level's contents, so the result is computed from the original input.  The
mutation of the input is modelled separately by
`rzgrid_from_zgrid_inputAfter`.) -/
def rzgrid_from_zgrid (zg : ZGrid) (depth : ℕ) : RZGrid :=
  (intRange0 (keyMax zg - depth + 1).toNat).foldl (rzStepZ zg depth) []

/-- The asserted precondition of `rzgrid_from_zgrid` (lines 131-132):
`max_zoom = max(zgrid.keys()) - zoom_depth; assert max_zoom >= 0`.  The
call raises `AssertionError` iff this is `false`. -/
def rzgrid_from_zgrid_ok (zg : ZGrid) (depth : ℕ) : Bool :=
  decide (0 ≤ keyMax zg - depth)

/-- Every stored sub-count of the retile structure is positive. -/
def rzPos (rz : RZGrid) : Prop :=
  ∀ p ∈ rz, ∀ q ∈ p.2, ∀ r ∈ q.2, gridPos r.2

/-- The state of the input `zgrid` after `rzgrid_from_zgrid` returns: the
bare defaultdict reads `zgrid[z]` (line 136) and — when level `z` has at
least one cell — `zgrid[z + zoom_depth]` (line 144) vivify missing levels
with empty dicts. -/
def rzgrid_from_zgrid_inputAfter (zg : ZGrid) (depth : ℕ) : ZGrid :=
  (intRange0 (keyMax zg - depth + 1).toNat).foldl
    (fun acc z =>
      let acc1 := zgViv acc z
      if hasCell (zgGet acc1 z) then zgViv acc1 (z + depth) else acc1)
    zg

/-- The vivification performed by one read `rzgrid[zoom][x][y][xx]` inside
`rzgrid_to_geojson`'s membership test (line 193). -/
def rzVivPath (rz : RZGrid) (z x y xx : ℤ) : RZGrid :=
  let l1 := (alGet rz z).getD []
  let l2 := (alGet l1 x).getD []
  let b := (alGet l2 y).getD []
  alSet rz z (alSet l1 x (alSet l2 y (alViv b xx [])))

/-- The state of the input `rzgrid` after `rzgrid_to_geojson` returns: one
vivifying read of `rzgrid[zoom][x][y][xx]` per `xx` in
`range(2 ** zoom_depth)`. -/
def rzgrid_to_geojson_inputAfter (rz : RZGrid) (x y zoom : ℤ) (depth : ℕ) : RZGrid :=
  (intRange0 (2 ^ depth)).foldl (fun acc xx => rzVivPath acc zoom x y xx) rz

/-- The block `rzgrid[zoom][x][y]` (empty when absent). -/
def blockAt (rz : RZGrid) (z x y : ℤ) : Grid :=
  (alGet ((alGet ((alGet rz z).getD []) x).getD []) y).getD []

/-- One GeoJSON-like output object of `rzgrid_to_geojson`: the four
`shapely.geometry.box` arguments in call order plus the attached
`crime_count`. -/
structure GeoBox where
  min_lon : ℝ
  min_lat : ℝ
  max_lon : ℝ
  max_lat : ℝ
  crime_count : ℤ

/-- The rectangle emitted by `rzgrid_to_geojson` for sub-cell `(xx, yy)`
with count `c` when rendering tile `(zoom, x, y)` at the given depth: the
four `shapely.geometry.box` arguments of lines 196-200 (`nw` and `se` are
the projected tile corners, `lon_width`/`lat_width` the sub-cell sizes of
lines 182-185) together with the `crime_count` attached at line 202. -/
noncomputable def boxOf (x y : ℤ) (zoom : ℕ) (depth : ℕ) (xx yy c : ℤ) : GeoBox :=
  let nw := point_from_slippy_tile_coordinates x y zoom
  let se := point_from_slippy_tile_coordinates (x + 1) (y + 1) zoom
  let lon_width := (se.1 - nw.1) / 2 ^ depth
  let lat_width := (se.2 - nw.2) / 2 ^ depth
  ⟨nw.1 + xx * lon_width, nw.2 + yy * lat_width,
   nw.1 + (xx + 1) * lon_width, nw.2 + (yy + 1) * lat_width, c⟩

/-- `www.rzgrid_to_geojson` (lines 177-205): iterate `xx, yy` over
`range(2 ** zoom_depth)`, skip sub-cells absent from
`rzgrid[zoom][x][y][xx]` (line 193's membership test), and append one
rectangle (`boxOf`) per present sub-cell with its stored count. -/
noncomputable def rzgrid_to_geojson (rz : RZGrid) (x y : ℤ) (zoom : ℕ) (depth : ℕ) : List GeoBox :=
  (List.range (2 ^ depth)).foldl
    (fun (gjos : List GeoBox) (xx : ℕ) =>
      (List.range (2 ^ depth)).foldl
        (fun (gjos : List GeoBox) (yy : ℕ) =>
          match cellGet (blockAt rz (zoom : ℤ) x y) (xx : ℤ) (yy : ℤ) with
          | none => gjos
          | some c => gjos ++ [boxOf x y zoom depth (xx : ℤ) (yy : ℤ) c])
        gjos)
    []

/-- The sub-cells of `b` present in the scanned `2^d × 2^d` range, with
their counts, in the renderer's scan order. -/
def presentPairs (b : Grid) (n : ℕ) : List (ℤ × ℤ × ℤ) :=
  (List.range n).flatMap
    (fun (xx : ℕ) => (List.range n).filterMap
      (fun (yy : ℕ) => (cellGet b (xx : ℤ) (yy : ℤ)).map (fun c => ((xx : ℤ), (yy : ℤ), c))))

/-- Option-level account of how one input grid's contribution combines into
an accumulating cell: absent contributes nothing, present adds to the
0-defaulted accumulator. -/
def addCell (a b : Option ℤ) : Option ℤ :=
  match b with
  | none => a
  | some c => some (a.getD 0 + c)

/-- Option-level account of dict assignment: a write (`some`) overwrites,
no write (`none`) leaves the old value. -/
def ovw (new old : Option ℤ) : Option ℤ :=
  match new with
  | some c => some c
  | none => old

/-- The sub-cell `(sx, sy)` of the retile block for coarse cell `(x, y)`:
the fine-grid cell `(x*p + sx, y*p + sy)` when `(sx, sy)` lies inside the
`p × p` scan window, absent otherwise.  This is what the range-filtered
copy loop of `rzgrid_from_zgrid` stores. -/
def blockGet (fine : Grid) (p x y sx sy : ℤ) : Option ℤ :=
  if sx < 0 ∨ p - 1 < sx ∨ sy < 0 ∨ p - 1 < sy then none
  else cellGet fine (x * p + sx) (y * p + sy)

/-- `pydiv2` iterated (the coordinate of the `d`-levels-up ancestor of a
cell). -/
def pydiv2iter : ℕ → ℤ → ℤ
  | 0, u => u
  | d + 1, u => pydiv2iter d (pydiv2 u)

instance decEqZGrid : DecidableEq (ℤ × Grid) := inferInstance

instance decEqALGrid : DecidableEq (AL Grid) := inferInstance

instance decEqALALGrid : DecidableEq (AL (AL Grid)) := inferInstance

instance decEqRZGrid : DecidableEq RZGrid := inferInstance

instance decAlSorted {α : Type} (l : AL α) : Decidable (alSorted l) :=
  inferInstanceAs (Decidable (l.Pairwise (fun p q : ℤ × α => p.1 < q.1)))

instance decGridSorted (g : Grid) : Decidable (gridSorted g) :=
  inferInstanceAs (Decidable (alSorted g ∧ ∀ p ∈ g, alSorted p.2))

instance decGridNE (g : Grid) : Decidable (gridNE g) :=
  inferInstanceAs (Decidable (∀ p ∈ g, p.2 ≠ []))

instance decGridWF (g : Grid) : Decidable (gridWF g) :=
  inferInstanceAs (Decidable (gridSorted g ∧ gridNE g))

instance decGridPos (g : Grid) : Decidable (gridPos g) :=
  inferInstanceAs (Decidable (∀ p ∈ g, ∀ q ∈ p.2, 0 < q.2))

instance decGridNonneg (g : Grid) : Decidable (gridNonneg g) :=
  inferInstanceAs (Decidable (∀ p ∈ g, 0 ≤ p.1 ∧ ∀ q ∈ p.2, 0 ≤ q.1))

instance decZgPos (zg : ZGrid) : Decidable (zgPos zg) :=
  inferInstanceAs (Decidable (∀ p ∈ zg, gridPos p.2))

instance decRzPos (rz : RZGrid) : Decidable (rzPos rz) :=
  inferInstanceAs (Decidable (∀ p ∈ rz, ∀ q ∈ p.2, ∀ r ∈ q.2, gridPos r.2))

/-! ## Association-list lemmas -/

theorem alGet_alSet {α : Type} (k : ℤ) (v : α) (x : ℤ) (l : AL α) :
    alGet (alSet l k v) x = if x = k then some v else alGet l x := by
  induction l with
  | nil => simp [alGet, alSet]
  | cons q t ih =>
    obtain ⟨k₀, w⟩ := q
    simp only [alSet]
    rcases lt_trichotomy k k₀ with h | h | h
    · rw [if_pos h]
      simp only [alGet]
    · subst h
      rw [if_neg (lt_irrefl k), if_pos rfl]
      simp only [alGet]
      by_cases hx : x = k
      · rw [if_pos hx, if_pos hx]
      · rw [if_neg hx, if_neg hx, if_neg hx]
    · rw [if_neg (by omega : ¬ k < k₀), if_neg (by omega : ¬ k = k₀)]
      simp only [alGet]
      by_cases hx : x = k₀
      · rw [if_pos hx, if_neg (by omega : ¬ x = k), if_pos hx]
      · rw [if_neg hx, if_neg hx, ih]

theorem alGet_alSet_self {α : Type} (l : AL α) (k : ℤ) (v : α) :
    alGet (alSet l k v) k = some v := by
  rw [alGet_alSet, if_pos rfl]

theorem alGet_alSet_ne {α : Type} (l : AL α) (k : ℤ) (v : α) {x : ℤ} (h : x ≠ k) :
    alGet (alSet l k v) x = alGet l x := by
  rw [alGet_alSet, if_neg h]

theorem mem_alSet {α : Type} {k : ℤ} {v : α} {p : ℤ × α} :
    ∀ {l : AL α}, p ∈ alSet l k v → p = (k, v) ∨ p ∈ l := by
  intro l
  induction l with
  | nil => intro hp; simp [alSet] at hp; left; exact hp
  | cons q t ih =>
    obtain ⟨k₀, w⟩ := q
    intro hp
    simp only [alSet] at hp
    by_cases h1 : k < k₀
    · rw [if_pos h1] at hp
      rcases List.mem_cons.1 hp with h | h
      · left; exact h
      · right; exact h
    · rw [if_neg h1] at hp
      by_cases h2 : k = k₀
      · rw [if_pos h2] at hp
        rcases List.mem_cons.1 hp with h | h
        · left; exact h
        · right; exact List.mem_cons_of_mem _ h
      · rw [if_neg h2] at hp
        rcases List.mem_cons.1 hp with h | h
        · right; exact List.mem_cons.2 (Or.inl h)
        · rcases ih h with h' | h'
          · left; exact h'
          · right; exact List.mem_cons_of_mem _ h'

theorem alGet_mem {α : Type} {x : ℤ} {v : α} :
    ∀ {l : AL α}, alGet l x = some v → (x, v) ∈ l := by
  intro l
  induction l with
  | nil => intro h; simp [alGet] at h
  | cons q t ih =>
    obtain ⟨k₀, w⟩ := q
    intro h
    simp only [alGet] at h
    by_cases hx : x = k₀
    · rw [if_pos hx] at h
      have hv : w = v := Option.some.inj h
      subst hv; subst hx
      exact List.mem_cons_self _ _
    · rw [if_neg hx] at h
      exact List.mem_cons_of_mem _ (ih h)

theorem alGet_eq_none_of_lt {α : Type} {x : ℤ} :
    ∀ {l : AL α}, (∀ p ∈ l, x < p.1) → alGet l x = none := by
  intro l
  induction l with
  | nil => intro _; rfl
  | cons q t ih =>
    intro h
    have hq := h q (List.mem_cons_self _ _)
    simp only [alGet, if_neg (by omega : ¬ x = q.1)]
    exact ih (fun p hp => h p (List.mem_cons_of_mem _ hp))

theorem alSorted_nil {α : Type} : alSorted ([] : AL α) := List.Pairwise.nil

theorem alSorted_cons {α : Type} {q : ℤ × α} {t : AL α} :
    alSorted (q :: t) ↔ (∀ p ∈ t, q.1 < p.1) ∧ alSorted t := by
  unfold alSorted
  exact List.pairwise_cons

theorem alSorted_alSet {α : Type} (k : ℤ) (v : α) :
    ∀ {l : AL α}, alSorted l → alSorted (alSet l k v) := by
  intro l
  induction l with
  | nil => intro _; simp [alSet, alSorted]
  | cons q t ih =>
    obtain ⟨k₀, w⟩ := q
    intro hs
    rcases alSorted_cons.1 hs with ⟨hq, ht⟩
    simp only [alSet]
    by_cases h1 : k < k₀
    · rw [if_pos h1]
      refine alSorted_cons.2 ⟨?_, hs⟩
      intro p hp
      rcases List.mem_cons.1 hp with h | h
      · rw [h]; exact h1
      · have := hq p h; simp at this ⊢; omega
    · rw [if_neg h1]
      by_cases h2 : k = k₀
      · rw [if_pos h2]
        refine alSorted_cons.2 ⟨?_, ht⟩
        intro p hp
        have := hq p hp; simp at this ⊢; omega
      · rw [if_neg h2]
        refine alSorted_cons.2 ⟨?_, ih ht⟩
        intro p hp
        rcases mem_alSet hp with h | h
        · rw [h]; simp; omega
        · exact hq p h

theorem alGet_eq_some_of_mem {α : Type} {x : ℤ} {v : α} :
    ∀ {l : AL α}, alSorted l → (x, v) ∈ l → alGet l x = some v := by
  intro l
  induction l with
  | nil => intro _ h; simp at h
  | cons q t ih =>
    obtain ⟨k₀, w⟩ := q
    intro hs hm
    rcases alSorted_cons.1 hs with ⟨hq, ht⟩
    rcases List.mem_cons.1 hm with h | h
    · obtain ⟨h1, h2⟩ := Prod.mk.inj h
      simp [alGet, h1, h2]
    · have hx : x ≠ k₀ := by
        have := hq (x, v) h; simp at this; omega
      simp only [alGet, if_neg hx]
      exact ih ht h

theorem alExt {α : Type} :
    ∀ {l₁ l₂ : AL α}, alSorted l₁ → alSorted l₂ →
      (∀ x, alGet l₁ x = alGet l₂ x) → l₁ = l₂ := by
  intro l₁
  induction l₁ with
  | nil =>
    intro l₂ _ hs₂ h
    cases l₂ with
    | nil => rfl
    | cons q t =>
      have := h q.1
      simp [alGet] at this
  | cons q t ih =>
    intro l₂ hs₁ hs₂ h
    cases l₂ with
    | nil =>
      have := h q.1
      simp [alGet] at this
    | cons q₂ t₂ =>
      rcases alSorted_cons.1 hs₁ with ⟨hq₁, ht₁⟩
      rcases alSorted_cons.1 hs₂ with ⟨hq₂, ht₂⟩
      have hkey : q.1 = q₂.1 := by
        by_contra hne
        rcases lt_trichotomy q.1 q₂.1 with hlt | heq | hgt
        · have h1 := h q.1
          have h2 : alGet (q₂ :: t₂) q.1 = none := by
            apply alGet_eq_none_of_lt
            intro p hp
            rcases List.mem_cons.1 hp with hp | hp
            · rw [hp]; exact hlt
            · have := hq₂ p hp; omega
          rw [h2] at h1
          simp [alGet] at h1
        · exact hne heq
        · have h1 := (h q₂.1).symm
          have h2 : alGet (q :: t) q₂.1 = none := by
            apply alGet_eq_none_of_lt
            intro p hp
            rcases List.mem_cons.1 hp with hp | hp
            · rw [hp]; exact hgt
            · have := hq₁ p hp; omega
          rw [h2] at h1
          simp [alGet] at h1
      have hval : q.2 = q₂.2 := by
        have h1 := h q.1
        simp only [alGet, if_pos rfl] at h1
        rw [hkey] at h1
        simp only [if_pos rfl] at h1
        exact Option.some.inj h1
      have htail : t = t₂ := by
        apply ih ht₁ ht₂
        intro x
        by_cases hx : x = q.1
        · have e₁ : alGet t x = none := by
            apply alGet_eq_none_of_lt
            intro p hp
            have := hq₁ p hp; omega
          have e₂ : alGet t₂ x = none := by
            apply alGet_eq_none_of_lt
            intro p hp
            have := hq₂ p hp; omega
          rw [e₁, e₂]
        · have h1 := h x
          simp only [alGet, if_neg hx] at h1
          rw [if_neg (by omega : ¬ x = q₂.1)] at h1
          exact h1
      obtain ⟨a, b⟩ := q
      obtain ⟨a₂, b₂⟩ := q₂
      simp at hkey hval
      rw [hkey, hval, htail]

theorem alSum_alSet {α : Type} (f : α → ℤ) (k : ℤ) (v : α) :
    ∀ {l : AL α}, alSorted l →
      alSum f (alSet l k v) = alSum f l + f v - ((alGet l k).elim 0 f) := by
  intro l
  induction l with
  | nil => intro _; simp [alSum, alSet, alGet]
  | cons q t ih =>
    obtain ⟨k₀, w⟩ := q
    intro hs
    rcases alSorted_cons.1 hs with ⟨hq, ht⟩
    simp only [alSet]
    rcases lt_trichotomy k k₀ with h1 | h1 | h1
    · rw [if_pos h1]
      have hget : alGet ((k₀, w) :: t) k = none := by
        apply alGet_eq_none_of_lt
        intro p hp
        rcases List.mem_cons.1 hp with hp | hp
        · rw [hp]; exact h1
        · have := hq p hp; simp at this; omega
      rw [hget]
      simp [alSum]
      ring
    · subst h1
      rw [if_neg (lt_irrefl k), if_pos rfl]
      have hget : alGet ((k, w) :: t) k = some w := by
        simp [alGet]
      rw [hget]
      simp [alSum]
      ring
    · rw [if_neg (by omega : ¬ k < k₀), if_neg (by omega : ¬ k = k₀)]
      have hget : alGet ((k₀, w) :: t) k = alGet t k := by
        simp only [alGet, if_neg (by omega : ¬ k = k₀)]
      rw [hget]
      simp only [alSum, List.map_cons, List.sum_cons]
      have hih := ih ht
      simp only [alSum] at hih
      rw [hih]
      ring

theorem alSet_append {α : Type} {k : ℤ} (v : α) :
    ∀ {l : AL α}, (∀ p ∈ l, p.1 < k) → alSet l k v = l ++ [(k, v)] := by
  intro l
  induction l with
  | nil => intro _; simp [alSet]
  | cons q t ih =>
    obtain ⟨k₀, w⟩ := q
    intro h
    have hq := h (k₀, w) (List.mem_cons_self _ _)
    simp only at hq
    simp only [alSet, if_neg (by omega : ¬ k < k₀), if_neg (by omega : ¬ k = k₀)]
    rw [ih (fun p hp => h p (List.mem_cons_of_mem _ hp))]
    simp

theorem alGet_append_last {α : Type} {k : ℤ} (v : α) :
    ∀ {l : AL α}, (∀ p ∈ l, p.1 < k) → alGet (l ++ [(k, v)]) k = some v := by
  intro l
  induction l with
  | nil => intro _; simp [alGet]
  | cons q t ih =>
    obtain ⟨k₀, w⟩ := q
    intro h
    have hq := h (k₀, w) (List.mem_cons_self _ _)
    simp only at hq
    simp only [List.cons_append, alGet, if_neg (by omega : ¬ k = k₀)]
    exact ih (fun p hp => h p (List.mem_cons_of_mem _ hp))

theorem alSet_append_last {α : Type} {k : ℤ} (w v : α) :
    ∀ {l : AL α}, (∀ p ∈ l, p.1 < k) → alSet (l ++ [(k, w)]) k v = l ++ [(k, v)] := by
  intro l
  induction l with
  | nil => intro _; simp [alSet]
  | cons q t ih =>
    obtain ⟨k₀, w₀⟩ := q
    intro h
    have hq := h (k₀, w₀) (List.mem_cons_self _ _)
    simp only at hq
    simp only [List.cons_append, alSet, if_neg (by omega : ¬ k < k₀),
      if_neg (by omega : ¬ k = k₀), List.append_eq]
    rw [ih (fun p hp => h p (List.mem_cons_of_mem _ hp))]


/-! ## Grid lemmas -/

theorem alSet_ne_nil {α : Type} (l : AL α) (k : ℤ) (v : α) : alSet l k v ≠ [] := by
  cases l with
  | nil => simp [alSet]
  | cons q t =>
    simp only [alSet]
    by_cases h1 : k < q.1
    · simp [h1]
    · by_cases h2 : k = q.1 <;> simp [h1, h2]

theorem inner_sorted {g : Grid} (hs : gridSorted g) (x : ℤ) :
    alSorted ((alGet g x).getD []) := by
  cases h : alGet g x with
  | none => exact alSorted_nil
  | some ys => exact hs.2 (x, ys) (alGet_mem h)

theorem cellGet_eq_bind (g : Grid) (x y : ℤ) :
    cellGet g x y = (alGet g x).bind (fun ys => alGet ys y) := rfl

theorem cellGet_gridInc (g : Grid) (x y c u v : ℤ) :
    cellGet (gridInc g x y c) u v =
      if u = x ∧ v = y then some (cellGetD g x y + c) else cellGet g u v := by
  unfold gridInc
  by_cases hu : u = x
  · subst hu
    rw [cellGet_eq_bind, alGet_alSet_self, Option.some_bind]
    rw [alGet_alSet]
    by_cases hv : v = y
    · subst hv
      rw [if_pos rfl, if_pos ⟨rfl, rfl⟩]
      unfold cellGetD cellGet
      cases h : alGet g u <;> simp [h, alGet]
    · rw [if_neg hv, if_neg (by simp [hv])]
      rw [cellGet_eq_bind]
      cases h : alGet g u <;> simp [h, alGet]
  · rw [cellGet_eq_bind, alGet_alSet_ne _ _ _ hu, if_neg (by simp [hu])]
    rfl

theorem cellGet_gridSet (g : Grid) (x y c u v : ℤ) :
    cellGet (gridSet g x y c) u v =
      if u = x ∧ v = y then some c else cellGet g u v := by
  unfold gridSet
  by_cases hu : u = x
  · subst hu
    rw [cellGet_eq_bind, alGet_alSet_self, Option.some_bind]
    rw [alGet_alSet]
    by_cases hv : v = y
    · subst hv
      rw [if_pos rfl, if_pos ⟨rfl, rfl⟩]
    · rw [if_neg hv, if_neg (by simp [hv])]
      rw [cellGet_eq_bind]
      cases h : alGet g u <;> simp [h, alGet]
  · rw [cellGet_eq_bind, alGet_alSet_ne _ _ _ hu, if_neg (by simp [hu])]
    rfl

theorem alGet_gridInc (g : Grid) (x y c u : ℤ) :
    alGet (gridInc g x y c) u =
      if u = x
      then some (alSet ((alGet g x).getD []) y ((alGet ((alGet g x).getD []) y).getD 0 + c))
      else alGet g u := by
  unfold gridInc
  rw [alGet_alSet]

theorem alGet_gridSet (g : Grid) (x y c u : ℤ) :
    alGet (gridSet g x y c) u =
      if u = x then some (alSet ((alGet g x).getD []) y c) else alGet g u := by
  unfold gridSet
  rw [alGet_alSet]

theorem gridSorted_gridInc {g : Grid} (hs : gridSorted g) (x y c : ℤ) :
    gridSorted (gridInc g x y c) := by
  constructor
  · exact alSorted_alSet _ _ hs.1
  · intro p hp
    rcases mem_alSet hp with h | h
    · rw [h]
      exact alSorted_alSet _ _ (inner_sorted hs x)
    · exact hs.2 p h

theorem gridSorted_gridSet {g : Grid} (hs : gridSorted g) (x y c : ℤ) :
    gridSorted (gridSet g x y c) := by
  constructor
  · exact alSorted_alSet _ _ hs.1
  · intro p hp
    rcases mem_alSet hp with h | h
    · rw [h]
      exact alSorted_alSet _ _ (inner_sorted hs x)
    · exact hs.2 p h

theorem gridNE_gridInc {g : Grid} (hn : gridNE g) (x y c : ℤ) :
    gridNE (gridInc g x y c) := by
  intro p hp
  rcases mem_alSet hp with h | h
  · rw [h]
    exact alSet_ne_nil _ _ _
  · exact hn p h

theorem gridNE_gridSet {g : Grid} (hn : gridNE g) (x y c : ℤ) :
    gridNE (gridSet g x y c) := by
  intro p hp
  rcases mem_alSet hp with h | h
  · rw [h]
    exact alSet_ne_nil _ _ _
  · exact hn p h

theorem gridPos_gridInc {g : Grid} (hp : gridPos g) {x y c : ℤ} (hc : 0 < c) :
    gridPos (gridInc g x y c) := by
  have hold : 0 ≤ (alGet ((alGet g x).getD []) y).getD 0 := by
    cases h : alGet g x with
    | none => simp [alGet]
    | some ys =>
      cases h2 : alGet ys y with
      | none => simp [h2]
      | some w =>
        have := hp (x, ys) (alGet_mem h) (y, w) (alGet_mem h2)
        simp only [Option.getD_some]
        rw [h2]
        simp at this ⊢
        omega
  intro p hpm q hq
  rcases mem_alSet hpm with h | h
  · subst h
    rcases mem_alSet hq with h' | h'
    · subst h'; simp; omega
    · cases hg : alGet g x with
      | none => rw [hg] at h'; simp at h'
      | some ys =>
        rw [hg] at h'
        exact hp (x, ys) (alGet_mem hg) q h'
  · exact hp p h q hq

theorem gridPos_gridSet {g : Grid} (hp : gridPos g) {x y c : ℤ} (hc : 0 < c) :
    gridPos (gridSet g x y c) := by
  intro p hpm q hq
  rcases mem_alSet hpm with h | h
  · subst h
    rcases mem_alSet hq with h' | h'
    · subst h'; simpa using hc
    · cases hg : alGet g x with
      | none => rw [hg] at h'; simp at h'
      | some ys =>
        rw [hg] at h'
        exact hp (x, ys) (alGet_mem hg) q h'
  · exact hp p h q hq

theorem gridNonneg_gridInc {g : Grid} (hn : gridNonneg g) {x y : ℤ} (c : ℤ)
    (hx : 0 ≤ x) (hy : 0 ≤ y) : gridNonneg (gridInc g x y c) := by
  intro p hpm
  rcases mem_alSet hpm with h | h
  · subst h
    refine ⟨hx, ?_⟩
    intro q hq
    rcases mem_alSet hq with h' | h'
    · subst h'; simpa using hy
    · cases hg : alGet g x with
      | none => rw [hg] at h'; simp at h'
      | some ys =>
        rw [hg] at h'
        exact ((hn (x, ys) (alGet_mem hg)).2) q h'
  · exact hn p h

theorem gridSum_eq_alSum (g : Grid) : gridSum g = alSum ySum g := rfl

theorem ySum_eq_alSum (ys : YCounts) : ySum ys = alSum id ys := by
  induction ys with
  | nil => rfl
  | cons q t ih =>
    simp only [ySum, alSum, List.map_cons, List.sum_cons, id] at ih ⊢

theorem ySum_alSet_inc (ys : YCounts) (y c : ℤ) (hs : alSorted ys) :
    ySum (alSet ys y ((alGet ys y).getD 0 + c)) = ySum ys + c := by
  rw [ySum_eq_alSum, alSum_alSet id _ _ hs, ← ySum_eq_alSum]
  cases h : alGet ys y with
  | none => simp [h]
  | some w => simp [h]; ring

theorem gridSum_gridInc {g : Grid} (hs : gridSorted g) (x y c : ℤ) :
    gridSum (gridInc g x y c) = gridSum g + c := by
  unfold gridInc
  rw [gridSum_eq_alSum, alSum_alSet ySum _ _ hs.1, ← gridSum_eq_alSum]
  cases h : alGet g x with
  | none =>
    simp only [h, Option.getD_none, Option.elim_none]
    rw [ySum_alSet_inc [] y c alSorted_nil]
    simp [ySum]
  | some ys =>
    simp only [h, Option.getD_some, Option.elim_some]
    rw [ySum_alSet_inc ys y c (hs.2 (x, ys) (alGet_mem h))]
    ring

theorem present_iff_exists_mem {α : Type} {l : AL α} (hs : alSorted l) (u : ℤ) :
    (alGet l u).isSome ↔ ∃ v, (u, v) ∈ l := by
  constructor
  · intro h
    cases hg : alGet l u with
    | none => rw [hg] at h; simp at h
    | some v => exact ⟨v, alGet_mem hg⟩
  · rintro ⟨v, hv⟩
    rw [alGet_eq_some_of_mem hs hv]
    rfl

theorem gridExtCells {g₁ g₂ : Grid} (hs₁ : gridSorted g₁) (hs₂ : gridSorted g₂)
    (hpres : ∀ x, (alGet g₁ x).isSome ↔ (alGet g₂ x).isSome)
    (hcell : ∀ x y, cellGet g₁ x y = cellGet g₂ x y) : g₁ = g₂ := by
  apply alExt hs₁.1 hs₂.1
  intro x
  cases h₁ : alGet g₁ x with
  | none =>
    cases h₂ : alGet g₂ x with
    | none => rfl
    | some ys₂ =>
      have := hpres x
      rw [h₁, h₂] at this
      simp at this
  | some ys₁ =>
    cases h₂ : alGet g₂ x with
    | none =>
      have := hpres x
      rw [h₁, h₂] at this
      simp at this
    | some ys₂ =>
      congr 1
      apply alExt (hs₁.2 (x, ys₁) (alGet_mem h₁)) (hs₂.2 (x, ys₂) (alGet_mem h₂))
      intro y
      have := hcell x y
      rw [cellGet_eq_bind, cellGet_eq_bind, h₁, h₂] at this
      simpa using this


/-! ## Fold lemmas: grid_from_crimes and grid_add -/

theorem addCell_none_right (a : Option ℤ) : addCell a none = a := rfl

theorem addCell_some (a : Option ℤ) (c : ℤ) : addCell a (some c) = some (a.getD 0 + c) := rfl

theorem gfc_fold_sorted_sum (proj : ℝ × ℝ → ℤ × ℤ) :
    ∀ (crimes : List (ℝ × ℝ)) (acc : Grid), gridSorted acc →
      gridSorted (crimes.foldl (fun g c => gridInc g (proj c).1 (proj c).2 1) acc) ∧
      gridSum (crimes.foldl (fun g c => gridInc g (proj c).1 (proj c).2 1) acc) =
        gridSum acc + crimes.length := by
  intro crimes
  induction crimes with
  | nil => intro acc h; exact ⟨h, by simp⟩
  | cons c t ih =>
    intro acc h
    simp only [List.foldl_cons, List.length_cons]
    obtain ⟨h1, h2⟩ := ih (gridInc acc (proj c).1 (proj c).2 1) (gridSorted_gridInc h _ _ _)
    refine ⟨h1, ?_⟩
    rw [h2, gridSum_gridInc h]
    push_cast
    ring

theorem gfc_fold_pos (proj : ℝ × ℝ → ℤ × ℤ) :
    ∀ (crimes : List (ℝ × ℝ)) (acc : Grid), gridPos acc →
      gridPos (crimes.foldl (fun g c => gridInc g (proj c).1 (proj c).2 1) acc) := by
  intro crimes
  induction crimes with
  | nil => intro acc h; exact h
  | cons c t ih =>
    intro acc h
    simp only [List.foldl_cons]
    exact ih _ (gridPos_gridInc h one_pos)

theorem innerFold_cell (x₀ : ℤ) :
    ∀ (ys : YCounts) (acc : Grid) (u v : ℤ), alSorted ys →
      cellGet (ys.foldl (fun a q => gridInc a x₀ q.1 q.2) acc) u v =
        if u = x₀ then addCell (cellGet acc u v) (alGet ys v) else cellGet acc u v := by
  intro ys
  induction ys with
  | nil =>
    intro acc u v _
    by_cases hu : u = x₀ <;> simp [hu, addCell, alGet]
  | cons q t ih =>
    intro acc u v hs
    rcases alSorted_cons.1 hs with ⟨hq, ht⟩
    simp only [List.foldl_cons]
    rw [ih _ u v ht]
    by_cases hu : u = x₀
    · rw [if_pos hu, if_pos hu]
      subst hu
      cases hvt : alGet t v with
      | some cc =>
        have hvq : v ≠ q.1 := by
          have := hq (v, cc) (alGet_mem hvt); simp at this; omega
        rw [cellGet_gridInc, if_neg (by tauto : ¬ (u = u ∧ v = q.1))]
        have : alGet (q :: t) v = some cc := by
          simp only [alGet, if_neg hvq]
          exact hvt
        rw [this]
      | none =>
        rw [addCell_none_right, cellGet_gridInc]
        by_cases hv : v = q.1
        · rw [if_pos ⟨rfl, hv⟩]
          have : alGet (q :: t) v = some q.2 := by
            obtain ⟨a, b⟩ := q
            simp only [alGet]
            simp at hv
            rw [if_pos hv]
          rw [this, addCell_some]
          subst hv
          rfl
        · rw [if_neg (by tauto : ¬ (u = u ∧ v = q.1))]
          have : alGet (q :: t) v = none := by
            simp only [alGet, if_neg hv]
            exact hvt
          rw [this, addCell_none_right]

    · rw [if_neg hu, if_neg hu]
      rw [cellGet_gridInc, if_neg (by tauto : ¬ (u = x₀ ∧ v = q.1))]

theorem cellGet_cons (p : ℤ × YCounts) (t : Grid) (u v : ℤ) :
    cellGet (p :: t) u v = if u = p.1 then alGet p.2 v else cellGet t u v := by
  unfold cellGet
  simp only [alGet]
  by_cases hu : u = p.1 <;> simp [hu]

theorem addOne_cell :
    ∀ (g acc : Grid) (u v : ℤ), gridSorted g →
      cellGet (gridAddOne acc g) u v = addCell (cellGet acc u v) (cellGet g u v) := by
  intro g
  induction g with
  | nil =>
    intro acc u v _
    simp [gridAddOne, cellGet, alGet, addCell]
  | cons p t ih =>
    intro acc u v hs
    have houter := alSorted_cons.1 hs.1
    have hts : gridSorted t := ⟨houter.2, fun q hq => hs.2 q (List.mem_cons_of_mem _ hq)⟩
    have hps : alSorted p.2 := hs.2 p (List.mem_cons_self _ _)
    simp only [gridAddOne, List.foldl_cons]
    have hrec := ih (p.2.foldl (fun a q => gridInc a p.1 q.1 q.2) acc) u v hts
    simp only [gridAddOne] at hrec
    rw [hrec, innerFold_cell p.1 p.2 acc u v hps, cellGet_cons]
    by_cases hu : u = p.1
    · rw [if_pos hu, if_pos hu]
      have hnone : cellGet t u v = none := by
        unfold cellGet
        have : alGet t u = none := by
          apply alGet_eq_none_of_lt
          intro r hr
          have := houter.1 r hr
          omega
        rw [this]
        rfl
      rw [hnone, addCell_none_right]
    · rw [if_neg hu, if_neg hu]

theorem grid_add_cell_fold :
    ∀ (gs : List Grid) (acc : Grid) (u v : ℤ), (∀ g ∈ gs, gridSorted g) →
      cellGet (gs.foldl gridAddOne acc) u v =
        gs.foldl (fun o g => addCell o (cellGet g u v)) (cellGet acc u v) := by
  intro gs
  induction gs with
  | nil => intro acc u v _; rfl
  | cons g t ih =>
    intro acc u v hgs
    simp only [List.foldl_cons]
    rw [ih _ u v (fun g' hg' => hgs g' (List.mem_cons_of_mem _ hg')),
      addOne_cell g acc u v (hgs g (List.mem_cons_self _ _))]

theorem innerFold_present (x₀ : ℤ) :
    ∀ (ys : YCounts) (acc : Grid) (u : ℤ),
      (alGet (ys.foldl (fun a q => gridInc a x₀ q.1 q.2) acc) u).isSome ↔
        (alGet acc u).isSome ∨ (u = x₀ ∧ ys ≠ []) := by
  intro ys
  induction ys with
  | nil => intro acc u; simp
  | cons q t ih =>
    intro acc u
    simp only [List.foldl_cons]
    rw [ih]
    rw [alGet_gridInc]
    by_cases hu : u = x₀
    · simp [hu]
    · simp [hu]

theorem addOne_present :
    ∀ (g acc : Grid) (u : ℤ),
      (alGet (gridAddOne acc g) u).isSome ↔
        (alGet acc u).isSome ∨ ∃ p ∈ g, p.1 = u ∧ p.2 ≠ [] := by
  intro g
  induction g with
  | nil => intro acc u; simp [gridAddOne]
  | cons p t ih =>
    intro acc u
    simp only [gridAddOne, List.foldl_cons]
    have hrec := ih (p.2.foldl (fun a q => gridInc a p.1 q.1 q.2) acc) u
    simp only [gridAddOne] at hrec
    rw [hrec, innerFold_present]
    simp only [List.mem_cons]
    constructor
    · rintro (⟨h | ⟨h1, h2⟩⟩ | ⟨r, hr, h1, h2⟩)
      · left; exact h
      · right; exact ⟨p, Or.inl rfl, h1.symm, h2⟩
      · right; exact ⟨r, Or.inr hr, h1, h2⟩
    · rintro (h | ⟨r, hr | hr, h1, h2⟩)
      · left; left; exact h
      · left; right; subst hr; exact ⟨h1.symm, h2⟩
      · right; exact ⟨r, hr, h1, h2⟩

theorem grid_add_present_fold :
    ∀ (gs : List Grid) (acc : Grid) (u : ℤ),
      (alGet (gs.foldl gridAddOne acc) u).isSome ↔
        (alGet acc u).isSome ∨ ∃ g ∈ gs, ∃ p ∈ g, p.1 = u ∧ p.2 ≠ [] := by
  intro gs
  induction gs with
  | nil => intro acc u; simp
  | cons g t ih =>
    intro acc u
    simp only [List.foldl_cons]
    rw [ih, addOne_present]
    simp only [List.mem_cons]
    constructor
    · rintro (⟨h | ⟨p, hp, h1, h2⟩⟩ | ⟨g', hg', p, hp, h1, h2⟩)
      · left; exact h
      · right; exact ⟨g, Or.inl rfl, p, hp, h1, h2⟩
      · right; exact ⟨g', Or.inr hg', p, hp, h1, h2⟩
    · rintro (h | ⟨g', hg' | hg', p, hp, h1, h2⟩)
      · left; left; exact h
      · left; right; subst hg'; exact ⟨p, hp, h1, h2⟩
      · right; exact ⟨g', hg', p, hp, h1, h2⟩

theorem innerFold_sortedNE (x₀ : ℤ) :
    ∀ (ys : YCounts) (acc : Grid), gridSorted acc → gridNE acc →
      gridSorted (ys.foldl (fun a q => gridInc a x₀ q.1 q.2) acc) ∧
        gridNE (ys.foldl (fun a q => gridInc a x₀ q.1 q.2) acc) := by
  intro ys
  induction ys with
  | nil => intro acc h1 h2; exact ⟨h1, h2⟩
  | cons q t ih =>
    intro acc h1 h2
    simp only [List.foldl_cons]
    exact ih _ (gridSorted_gridInc h1 _ _ _) (gridNE_gridInc h2 _ _ _)

theorem addOne_sortedNE :
    ∀ (g acc : Grid), gridSorted acc → gridNE acc →
      gridSorted (gridAddOne acc g) ∧ gridNE (gridAddOne acc g) := by
  intro g
  induction g with
  | nil => intro acc h1 h2; exact ⟨h1, h2⟩
  | cons p t ih =>
    intro acc h1 h2
    simp only [gridAddOne, List.foldl_cons]
    obtain ⟨h1', h2'⟩ := innerFold_sortedNE p.1 p.2 acc h1 h2
    have := ih _ h1' h2'
    simpa [gridAddOne] using this

theorem grid_add_sortedNE :
    ∀ (gs : List Grid) (acc : Grid), gridSorted acc → gridNE acc →
      gridSorted (gs.foldl gridAddOne acc) ∧ gridNE (gs.foldl gridAddOne acc) := by
  intro gs
  induction gs with
  | nil => intro acc h1 h2; exact ⟨h1, h2⟩
  | cons g t ih =>
    intro acc h1 h2
    simp only [List.foldl_cons]
    obtain ⟨h1', h2'⟩ := addOne_sortedNE g acc h1 h2
    exact ih _ h1' h2'

theorem innerFold_pos (x₀ : ℤ) :
    ∀ (ys : YCounts) (acc : Grid), gridPos acc → (∀ q ∈ ys, 0 < q.2) →
      gridPos (ys.foldl (fun a q => gridInc a x₀ q.1 q.2) acc) := by
  intro ys
  induction ys with
  | nil => intro acc h _; exact h
  | cons q t ih =>
    intro acc h hys
    simp only [List.foldl_cons]
    exact ih _ (gridPos_gridInc h (hys q (List.mem_cons_self _ _)))
      (fun r hr => hys r (List.mem_cons_of_mem _ hr))

theorem addOne_pos :
    ∀ (g acc : Grid), gridPos acc → gridPos g → gridPos (gridAddOne acc g) := by
  intro g
  induction g with
  | nil => intro acc h _; exact h
  | cons p t ih =>
    intro acc h hg
    simp only [gridAddOne, List.foldl_cons]
    have hstep := innerFold_pos p.1 p.2 acc h (fun q hq => hg p (List.mem_cons_self _ _) q hq)
    have := ih _ hstep (fun r hr => hg r (List.mem_cons_of_mem _ hr))
    simpa [gridAddOne] using this

theorem grid_add_pos_fold :
    ∀ (gs : List Grid) (acc : Grid), gridPos acc → (∀ g ∈ gs, gridPos g) →
      gridPos (gs.foldl gridAddOne acc) := by
  intro gs
  induction gs with
  | nil => intro acc h _; exact h
  | cons g t ih =>
    intro acc h hgs
    simp only [List.foldl_cons]
    exact ih _ (addOne_pos g acc h (hgs g (List.mem_cons_self _ _)))
      (fun g' hg' => hgs g' (List.mem_cons_of_mem _ hg'))


/-! ## Pyramid lemmas: seeding -/

theorem alGet_eq_none_of_ne {α : Type} {x : ℤ} :
    ∀ {l : AL α}, (∀ p ∈ l, p.1 ≠ x) → alGet l x = none := by
  intro l
  induction l with
  | nil => intro _; rfl
  | cons q t ih =>
    intro h
    have hq := h q (List.mem_cons_self _ _)
    simp only [alGet, if_neg (by omega : ¬ x = q.1)]
    exact ih (fun p hp => h p (List.mem_cons_of_mem _ hp))

theorem pydiv2_nonneg {x : ℤ} (h : 0 ≤ x) : 0 ≤ pydiv2 x := by
  unfold pydiv2
  rw [Int.tdiv_eq_ediv h (by norm_num)]
  exact Int.ediv_nonneg h (by norm_num)

theorem pydiv2_eq_ediv {x : ℤ} (h : 0 ≤ x) : pydiv2 x = x / 2 :=
  Int.tdiv_eq_ediv h (by norm_num)

theorem rebuild_inner (x : ℤ) :
    ∀ (t : YCounts) (pre : YCounts) (G : Grid), alSorted (pre ++ t) → pre ≠ [] →
      (∀ p ∈ G, p.1 < x) →
      t.foldl (fun G q => gridSet G x q.1 q.2) (G ++ [(x, pre)]) = G ++ [(x, pre ++ t)] := by
  intro t
  induction t with
  | nil => intro pre G _ _ _; simp
  | cons q t' ih =>
    intro pre G hsort hpre hG
    simp only [List.foldl_cons]
    have hkeys : ∀ p ∈ pre, p.1 < q.1 := by
      intro p hp
      have := (List.pairwise_append.1 hsort).2.2 p hp q (List.mem_cons_self _ _)
      exact this
    have hget : alGet (G ++ [(x, pre)]) x = some pre := alGet_append_last pre hG
    have hstep : gridSet (G ++ [(x, pre)]) x q.1 q.2 = G ++ [(x, pre ++ [(q.1, q.2)])] := by
      unfold gridSet
      rw [hget]
      simp only [Option.getD_some]
      rw [alSet_append q.2 hkeys, alSet_append_last pre (pre ++ [(q.1, q.2)]) hG]
    rw [hstep]
    have hsort' : alSorted ((pre ++ [(q.1, q.2)]) ++ t') := by
      have : (pre ++ [(q.1, q.2)]) ++ t' = pre ++ ((q.1, q.2) :: t') := by simp
      rw [this]
      have : (q.1, q.2) :: t' = q :: t' := by simp
      rw [this]
      exact hsort
    have := ih (pre ++ [(q.1, q.2)]) G hsort' (by simp) hG
    rw [this]
    simp

theorem rebuild_inner_start (x : ℤ) :
    ∀ (ys : YCounts) (G : Grid), alSorted ys → ys ≠ [] → (∀ p ∈ G, p.1 < x) →
      ys.foldl (fun G q => gridSet G x q.1 q.2) G = G ++ [(x, ys)] := by
  intro ys G hsort hne hG
  cases ys with
  | nil => exact absurd rfl hne
  | cons q t =>
    simp only [List.foldl_cons]
    have hgetG : alGet G x = none := by
      apply alGet_eq_none_of_ne
      intro p hp
      have := hG p hp; omega
    have hstep : gridSet G x q.1 q.2 = G ++ [(x, [(q.1, q.2)])] := by
      unfold gridSet
      rw [hgetG]
      simp only [Option.getD_none, alGet, alSet]
      exact alSet_append _ hG
    rw [hstep]
    have : alSorted ([(q.1, q.2)] ++ t) := by
      have : [(q.1, q.2)] ++ t = q :: t := by simp
      rw [this]; exact hsort
    have hres := rebuild_inner x t [(q.1, q.2)] G this (by simp) hG
    rw [hres]
    simp

theorem rebuild_outer :
    ∀ (g : Grid) (G : Grid), gridSorted g → gridNE g →
      (∀ p ∈ G, ∀ q ∈ g, p.1 < q.1) →
      g.foldl (fun G p => p.2.foldl (fun G q => gridSet G p.1 q.1 q.2) G) G = G ++ g := by
  intro g
  induction g with
  | nil => intro G _ _ _; simp
  | cons p t ih =>
    intro G hs hn hG
    simp only [List.foldl_cons]
    have hps : alSorted p.2 := hs.2 p (List.mem_cons_self _ _)
    have hpn : p.2 ≠ [] := hn p (List.mem_cons_self _ _)
    have hGp : ∀ r ∈ G, r.1 < p.1 := fun r hr => hG r hr p (List.mem_cons_self _ _)
    have hstep := rebuild_inner_start p.1 p.2 G hps hpn hGp
    have hpeta : (p.1, p.2) = p := rfl
    rw [hpeta] at hstep
    rw [hstep]
    have hts : gridSorted t := ⟨(alSorted_cons.1 hs.1).2, fun q hq => hs.2 q (List.mem_cons_of_mem _ hq)⟩
    have htn : gridNE t := fun q hq => hn q (List.mem_cons_of_mem _ hq)
    have hG' : ∀ r ∈ G ++ [p], ∀ q ∈ t, r.1 < q.1 := by
      intro r hr q hq
      rcases List.mem_append.1 hr with h | h
      · exact hG r h q (List.mem_cons_of_mem _ hq)
      · simp at h
        subst h
        exact (alSorted_cons.1 hs.1).1 q hq
    have := ih (G ++ [p]) hts htn hG'
    rw [this]
    simp

theorem seed_fold_inner (zoom x : ℤ) :
    ∀ (ys : YCounts) (acc : ZGrid),
      (∀ l, l ≠ zoom → alGet (ys.foldl (fun a q => zgSetCell a zoom x q.1 q.2) acc) l = alGet acc l) ∧
      zgGet (ys.foldl (fun a q => zgSetCell a zoom x q.1 q.2) acc) zoom =
        ys.foldl (fun G q => gridSet G x q.1 q.2) (zgGet acc zoom) := by
  intro ys
  induction ys with
  | nil => intro acc; exact ⟨fun _ _ => rfl, rfl⟩
  | cons q t ih =>
    intro acc
    simp only [List.foldl_cons]
    obtain ⟨ih1, ih2⟩ := ih (zgSetCell acc zoom x q.1 q.2)
    constructor
    · intro l hl
      rw [ih1 l hl]
      unfold zgSetCell
      exact alGet_alSet_ne _ _ _ hl
    · rw [ih2]
      unfold zgSetCell zgGet
      rw [alGet_alSet_self]
      rfl

theorem seed_fold_outer :
    ∀ (g : Grid) (acc : ZGrid) (zoom : ℤ),
      (∀ l, l ≠ zoom →
        alGet (g.foldl (fun a p => p.2.foldl (fun a q => zgSetCell a zoom p.1 q.1 q.2) a) acc) l =
          alGet acc l) ∧
      zgGet (g.foldl (fun a p => p.2.foldl (fun a q => zgSetCell a zoom p.1 q.1 q.2) a) acc) zoom =
        g.foldl (fun G p => p.2.foldl (fun G q => gridSet G p.1 q.1 q.2) G) (zgGet acc zoom) := by
  intro g
  induction g with
  | nil => intro acc zoom; exact ⟨fun _ _ => rfl, rfl⟩
  | cons p t ih =>
    intro acc zoom
    simp only [List.foldl_cons]
    obtain ⟨s1, s2⟩ := seed_fold_inner zoom p.1 p.2 acc
    obtain ⟨ih1, ih2⟩ := ih (p.2.foldl (fun a q => zgSetCell a zoom p.1 q.1 q.2) acc) zoom
    constructor
    · intro l hl
      rw [ih1 l hl, s1 l hl]
    · rw [ih2, s2]

theorem seed_get_ne {g : Grid} {zoom l : ℤ} (h : l ≠ zoom) :
    alGet (seedZ g zoom) l = none := by
  unfold seedZ
  rw [(seed_fold_outer g [] zoom).1 l h]
  rfl

theorem seed_level {g : Grid} (hg : gridWF g) (zoom : ℤ) :
    zgGet (seedZ g zoom) zoom = g := by
  unfold seedZ
  rw [(seed_fold_outer g [] zoom).2]
  have : zgGet ([] : ZGrid) zoom = [] := rfl
  rw [this]
  have := rebuild_outer g [] hg.1 hg.2 (by simp)
  rw [this]
  simp

/-! ## Pyramid lemmas: the roll-up loop -/

theorem alGet_zgViv (zg : ZGrid) (w l : ℤ) :
    alGet (zgViv zg w) l = if l = w then some (zgGet zg w) else alGet zg l := by
  unfold zgViv zgGet
  cases h : alGet zg w with
  | some G =>
    by_cases hl : l = w
    · subst hl; rw [if_pos rfl, h]
      rfl
    · rw [if_neg hl]
  | none =>
    by_cases hl : l = w
    · subst hl; rw [if_pos rfl, alGet_alSet_self]
      rfl
    · rw [if_neg hl, alGet_alSet_ne _ _ _ hl]

theorem alGet_zgIncCell (zg : ZGrid) (w x y c l : ℤ) :
    alGet (zgIncCell zg w x y c) l =
      if l = w then some (gridInc (zgGet zg w) x y c) else alGet zg l := by
  unfold zgIncCell
  rw [alGet_alSet]

theorem incFold_get_ne (w : ℤ) :
    ∀ (entries : Grid) (acc : ZGrid) (l : ℤ), l ≠ w →
      alGet (entries.foldl
        (fun a p => p.2.foldl (fun a q => zgIncCell a w (pydiv2 p.1) (pydiv2 q.1) q.2) a) acc) l =
      alGet acc l := by
  have inner : ∀ (x : ℤ) (ys : YCounts) (acc : ZGrid) (l : ℤ), l ≠ w →
      alGet (ys.foldl (fun a q => zgIncCell a w (pydiv2 x) (pydiv2 q.1) q.2) acc) l =
        alGet acc l := by
    intro x ys
    induction ys with
    | nil => intro acc l _; rfl
    | cons q t ih =>
      intro acc l hl
      simp only [List.foldl_cons]
      rw [ih _ l hl, alGet_zgIncCell, if_neg hl]
  intro entries
  induction entries with
  | nil => intro acc l _; rfl
  | cons p t ih =>
    intro acc l hl
    simp only [List.foldl_cons]
    rw [ih _ l hl, inner p.1 p.2 acc l hl]

theorem incFold_level (w : ℤ) :
    ∀ (entries : Grid) (acc : ZGrid),
      zgGet (entries.foldl
        (fun a p => p.2.foldl (fun a q => zgIncCell a w (pydiv2 p.1) (pydiv2 q.1) q.2) a) acc) w =
      coarsenFrom (zgGet acc w) entries := by
  have inner : ∀ (x : ℤ) (ys : YCounts) (acc : ZGrid),
      zgGet (ys.foldl (fun a q => zgIncCell a w (pydiv2 x) (pydiv2 q.1) q.2) acc) w =
        ys.foldl (fun G q => gridInc G (pydiv2 x) (pydiv2 q.1) q.2) (zgGet acc w) := by
    intro x ys
    induction ys with
    | nil => intro acc; rfl
    | cons q t ih =>
      intro acc
      simp only [List.foldl_cons]
      rw [ih]
      congr 1
      unfold zgGet zgIncCell
      rw [alGet_alSet_self]
      rfl
  intro entries
  induction entries with
  | nil => intro acc; rfl
  | cons p t ih =>
    intro acc
    simp only [List.foldl_cons]
    rw [ih]
    simp only [coarsenFrom, List.foldl_cons]
    congr 1
    exact inner p.1 p.2 acc

theorem alGet_rollStep_ne (zg : ZGrid) {z l : ℤ} (h : l ≠ z - 1) :
    alGet (rollStep zg z) l = if l = z then some (zgGet zg z) else alGet zg l := by
  unfold rollStep
  rw [incFold_get_ne (z - 1) _ _ l h, alGet_zgViv]

theorem zgGet_rollStep_parent {zg : ZGrid} {z : ℤ} (hctx : alGet zg (z - 1) = none) :
    zgGet (rollStep zg z) (z - 1) = coarsen (zgGet zg z) := by
  unfold rollStep
  rw [incFold_level]
  have hv : zgGet (zgViv zg z) (z - 1) = [] := by
    unfold zgGet
    rw [alGet_zgViv, if_neg (by omega : ¬ z - 1 = z), hctx]
    rfl
  rw [hv]
  rfl

theorem rollLoop_spec :
    ∀ (k : ℕ) (zg : ZGrid) (z : ℤ),
      (∀ l, l < z → alGet zg l = none) →
      (∀ l, z < l → alGet (rollLoop zg z k) l = alGet zg l) ∧
      (∀ l, l < z - k → alGet (rollLoop zg z k) l = none) ∧
      (∀ j : ℕ, j ≤ k → zgGet (rollLoop zg z k) (z - j) = coarsenIter j (zgGet zg z)) ∧
      (1 ≤ k → alGet (rollLoop zg z k) z = some (zgGet zg z)) := by
  intro k
  induction k with
  | zero =>
    intro zg z hctx
    refine ⟨fun l _ => rfl, fun l hl => hctx l (by push_cast at hl; omega), ?_, by omega⟩
    intro j hj
    have hj0 : j = 0 := by omega
    subst hj0
    simp only [Nat.cast_zero, sub_zero, coarsenIter]
    rfl
  | succ k ih =>
    intro zg z hctx
    have hctx' : ∀ l, l < z - 1 → alGet (rollStep zg z) l = none := by
      intro l hl
      rw [alGet_rollStep_ne zg (by omega), if_neg (by omega)]
      exact hctx l (by omega)
    obtain ⟨a', b', c', d'⟩ := ih (rollStep zg z) (z - 1) hctx'
    have hstepz : alGet (rollStep zg z) z = some (zgGet zg z) := by
      rw [alGet_rollStep_ne zg (by omega), if_pos rfl]
    have hparent : zgGet (rollStep zg z) (z - 1) = coarsen (zgGet zg z) :=
      zgGet_rollStep_parent (hctx (z - 1) (by omega))
    have hloop : rollLoop zg z (k + 1) = rollLoop (rollStep zg z) (z - 1) k := rfl
    refine ⟨?_, ?_, ?_, ?_⟩
    · intro l hl
      rw [hloop, a' l (by omega), alGet_rollStep_ne zg (by omega), if_neg (by omega)]
    · intro l hl
      rw [hloop]
      apply b'
      push_cast at hl ⊢
      omega
    · intro j hj
      rw [hloop]
      cases j with
      | zero =>
        simp only [Nat.cast_zero, sub_zero, coarsenIter]
        unfold zgGet
        rw [a' z (by omega), hstepz]
        rfl
      | succ j' =>
        have hz : z - ((j' + 1 : ℕ) : ℤ) = (z - 1) - (j' : ℕ) := by push_cast; ring
        rw [hz, c' j' (by omega), hparent]
        rfl
    · intro _
      rw [hloop, a' z (by omega), hstepz]


/-! ## Pyramid characterization -/

theorem foldl_inv {α β : Type} (P : α → Prop) (f : α → β → α)
    (hf : ∀ a b, P a → P (f a b)) :
    ∀ (l : List β) (a : α), P a → P (l.foldl f a) := by
  intro l
  induction l with
  | nil => intro a h; exact h
  | cons b t ih =>
    intro a h
    simp only [List.foldl_cons]
    exact ih _ (hf a b h)

theorem rollLoop_inv (P : ZGrid → Prop) (hstep : ∀ zg z, P zg → P (rollStep zg z)) :
    ∀ (k : ℕ) (zg : ZGrid) (z : ℤ), P zg → P (rollLoop zg z k) := by
  intro k
  induction k with
  | zero => intro zg z h; exact h
  | succ k ih =>
    intro zg z h
    exact ih (rollStep zg z) (z - 1) (hstep zg z h)

theorem pyramid_level {g : Grid} (hg : gridWF g) {zoom min_zoom : ℤ}
    {l : ℤ} (h1 : min_zoom ≤ l) (h2 : l ≤ zoom) :
    zgGet (zgrid_from_grid g zoom min_zoom) l = coarsenIter (zoom - l).toNat g := by
  unfold zgrid_from_grid
  have hctx : ∀ l', l' < zoom → alGet (seedZ g zoom) l' = none :=
    fun l' hl' => seed_get_ne (by omega)
  obtain ⟨_, _, c, _⟩ := rollLoop_spec (zoom - min_zoom).toNat (seedZ g zoom) zoom hctx
  have hj : (zoom - l).toNat ≤ (zoom - min_zoom).toNat := Int.toNat_le_toNat (by omega)
  have hc := c (zoom - l).toNat hj
  rw [seed_level hg] at hc
  have hzl : zoom - ((zoom - l).toNat : ℤ) = l := by
    rw [Int.toNat_of_nonneg (by omega : (0:ℤ) ≤ zoom - l)]
    ring
  rw [hzl] at hc
  exact hc

theorem pyramid_get_high {g : Grid} {zoom min_zoom l : ℤ} (h : zoom < l) :
    alGet (zgrid_from_grid g zoom min_zoom) l = none := by
  unfold zgrid_from_grid
  have hctx : ∀ l', l' < zoom → alGet (seedZ g zoom) l' = none :=
    fun l' hl' => seed_get_ne (by omega)
  obtain ⟨a, _, _, _⟩ := rollLoop_spec (zoom - min_zoom).toNat (seedZ g zoom) zoom hctx
  rw [a l h]
  exact seed_get_ne (by omega)

theorem pyramid_get_low {g : Grid} {zoom min_zoom l : ℤ} (hmz : min_zoom ≤ zoom)
    (h : l < min_zoom) :
    alGet (zgrid_from_grid g zoom min_zoom) l = none := by
  unfold zgrid_from_grid
  have hctx : ∀ l', l' < zoom → alGet (seedZ g zoom) l' = none :=
    fun l' hl' => seed_get_ne (by omega)
  obtain ⟨_, b, _, _⟩ := rollLoop_spec (zoom - min_zoom).toNat (seedZ g zoom) zoom hctx
  apply b
  have : ((zoom - min_zoom).toNat : ℤ) = zoom - min_zoom :=
    Int.toNat_of_nonneg (by omega)
  omega

theorem pyramid_get_zoom {g : Grid} (hg : gridWF g) {zoom min_zoom : ℤ}
    (hmz : min_zoom < zoom) :
    alGet (zgrid_from_grid g zoom min_zoom) zoom = some g := by
  unfold zgrid_from_grid
  have hctx : ∀ l', l' < zoom → alGet (seedZ g zoom) l' = none :=
    fun l' hl' => seed_get_ne (by omega)
  obtain ⟨_, _, _, d⟩ := rollLoop_spec (zoom - min_zoom).toNat (seedZ g zoom) zoom hctx
  have hk : 1 ≤ (zoom - min_zoom).toNat := by omega
  rw [d hk, seed_level hg]

theorem alSorted_zgViv {zg : ZGrid} (h : alSorted zg) (z : ℤ) : alSorted (zgViv zg z) := by
  unfold zgViv
  cases alGet zg z with
  | some G => exact h
  | none => exact alSorted_alSet _ _ h

theorem pyramid_outer_sorted (g : Grid) (zoom min_zoom : ℤ) :
    alSorted (zgrid_from_grid g zoom min_zoom) := by
  unfold zgrid_from_grid
  apply rollLoop_inv alSorted
  · intro zg z hzg
    unfold rollStep
    apply foldl_inv alSorted
    · intro a p ha
      apply foldl_inv alSorted
      · intro a' q ha'
        exact alSorted_alSet _ _ ha'
      · exact ha
    · exact alSorted_zgViv hzg z
  · unfold seedZ
    apply foldl_inv alSorted
    · intro a p ha
      apply foldl_inv alSorted
      · intro a' q ha'
        exact alSorted_alSet _ _ ha'
      · exact ha
    · exact alSorted_nil

theorem gridSorted_coarsenFrom :
    ∀ (f acc : Grid), gridSorted acc → gridSorted (coarsenFrom acc f) := by
  intro f acc h
  unfold coarsenFrom
  apply foldl_inv gridSorted
  · intro a p ha
    apply foldl_inv gridSorted
    · intro a' q ha'
      exact gridSorted_gridInc ha' _ _ _
    · exact ha
  · exact h

theorem gridSorted_coarsenIter :
    ∀ (k : ℕ) (g : Grid), gridSorted g → gridSorted (coarsenIter k g) := by
  intro k
  induction k with
  | zero => intro g h; exact h
  | succ k ih =>
    intro g h
    exact ih (coarsen g) (gridSorted_coarsenFrom g [] ⟨alSorted_nil, by simp⟩)

theorem pyramid_sorted_levels {g : Grid} (hg : gridWF g) {zoom min_zoom : ℤ}
    (hmz : min_zoom < zoom) :
    zgSortedAll (zgrid_from_grid g zoom min_zoom) := by
  intro l
  by_cases h1 : l ≤ zoom
  · by_cases h2 : min_zoom ≤ l
    · rw [pyramid_level hg h2 h1]
      exact gridSorted_coarsenIter _ g hg.1
    · unfold zgGet
      rw [pyramid_get_low (by omega) (by omega)]
      exact ⟨alSorted_nil, by simp⟩
  · unfold zgGet
    rw [pyramid_get_high (by omega)]
    exact ⟨alSorted_nil, by simp⟩

theorem gridSum_cons (p : ℤ × YCounts) (t : Grid) :
    gridSum (p :: t) = ySum p.2 + gridSum t := by
  simp [gridSum]

theorem coarsenFrom_sorted_sum :
    ∀ (f acc : Grid), gridSorted acc →
      gridSorted (coarsenFrom acc f) ∧ gridSum (coarsenFrom acc f) = gridSum acc + gridSum f := by
  have inner : ∀ (x : ℤ) (ys : YCounts) (acc : Grid), gridSorted acc →
      gridSorted (ys.foldl (fun a q => gridInc a (pydiv2 x) (pydiv2 q.1) q.2) acc) ∧
      gridSum (ys.foldl (fun a q => gridInc a (pydiv2 x) (pydiv2 q.1) q.2) acc) =
        gridSum acc + ySum ys := by
    intro x ys
    induction ys with
    | nil => intro acc h; exact ⟨h, by simp [ySum]⟩
    | cons q t ih =>
      intro acc h
      simp only [List.foldl_cons]
      obtain ⟨ih1, ih2⟩ := ih (gridInc acc (pydiv2 x) (pydiv2 q.1) q.2) (gridSorted_gridInc h _ _ _)
      refine ⟨ih1, ?_⟩
      rw [ih2, gridSum_gridInc h]
      simp only [ySum, List.map_cons, List.sum_cons]
      ring
  intro f
  induction f with
  | nil => intro acc h; exact ⟨h, by simp [coarsenFrom, gridSum]⟩
  | cons p t ih =>
    intro acc h
    simp only [coarsenFrom, List.foldl_cons]
    obtain ⟨h1, h2⟩ := inner p.1 p.2 acc h
    obtain ⟨ih1, ih2⟩ := ih _ h1
    simp only [coarsenFrom] at ih1 ih2
    refine ⟨ih1, ?_⟩
    rw [ih2, h2, gridSum_cons]
    ring

theorem gridSum_coarsenIter :
    ∀ (k : ℕ) (g : Grid), gridSorted g → gridSum (coarsenIter k g) = gridSum g := by
  intro k
  induction k with
  | zero => intro g _; rfl
  | succ k ih =>
    intro g hg
    have h0 : gridSorted ([] : Grid) := ⟨alSorted_nil, by simp⟩
    obtain ⟨h1, h2⟩ := coarsenFrom_sorted_sum g [] h0
    have : gridSum (coarsen g) = gridSum g := by
      unfold coarsen
      rw [h2]
      simp [gridSum]
    calc gridSum (coarsenIter (k + 1) g) = gridSum (coarsenIter k (coarsen g)) := rfl
      _ = gridSum (coarsen g) := ih (coarsen g) h1
      _ = gridSum g := this

theorem gridPos_zgGet {zg : ZGrid} (h : zgPos zg) (z : ℤ) : gridPos (zgGet zg z) := by
  unfold zgGet
  cases hg : alGet zg z with
  | none => intro p hp; simp at hp
  | some G =>
    intro p hp q hq
    exact h (z, G) (alGet_mem hg) p hp q hq

theorem zgPos_zgSetCell {zg : ZGrid} (h : zgPos zg) {z x y c : ℤ} (hc : 0 < c) :
    zgPos (zgSetCell zg z x y c) := by
  intro p hp
  rcases mem_alSet hp with h' | h'
  · subst h'
    exact gridPos_gridSet (gridPos_zgGet h z) hc
  · exact h p h'

theorem zgPos_zgIncCell {zg : ZGrid} (h : zgPos zg) {z x y c : ℤ} (hc : 0 < c) :
    zgPos (zgIncCell zg z x y c) := by
  intro p hp
  rcases mem_alSet hp with h' | h'
  · subst h'
    exact gridPos_gridInc (gridPos_zgGet h z) hc
  · exact h p h'

theorem zgPos_zgViv {zg : ZGrid} (h : zgPos zg) (z : ℤ) : zgPos (zgViv zg z) := by
  unfold zgViv
  cases alGet zg z with
  | some G => exact h
  | none =>
    intro p hp
    rcases mem_alSet hp with h' | h'
    · subst h'
      intro q hq
      simp at hq
    · exact h p h'

theorem zgPos_seedZ {g : Grid} (hg : gridPos g) (zoom : ℤ) : zgPos (seedZ g zoom) := by
  unfold seedZ
  have outer : ∀ (t : Grid) (acc : ZGrid), zgPos acc → (∀ p ∈ t, ∀ q ∈ p.2, 0 < q.2) →
      zgPos (t.foldl (fun a p => p.2.foldl (fun a q => zgSetCell a zoom p.1 q.1 q.2) a) acc) := by
    intro t
    induction t with
    | nil => intro acc h _; exact h
    | cons p t' ih =>
      intro acc h hpos
      simp only [List.foldl_cons]
      have hinner : ∀ (ys : YCounts) (acc' : ZGrid), zgPos acc' → (∀ q ∈ ys, 0 < q.2) →
          zgPos (ys.foldl (fun a q => zgSetCell a zoom p.1 q.1 q.2) acc') := by
        intro ys
        induction ys with
        | nil => intro acc' h' _; exact h'
        | cons q t'' ih' =>
          intro acc' h' hys
          simp only [List.foldl_cons]
          exact ih' _ (zgPos_zgSetCell h' (hys q (List.mem_cons_self _ _)))
            (fun r hr => hys r (List.mem_cons_of_mem _ hr))
      apply ih _ (hinner p.2 acc h (fun q hq => hpos p (List.mem_cons_self _ _) q hq))
      intro r hr
      exact hpos r (List.mem_cons_of_mem _ hr)
  apply outer g [] (by intro p hp; simp at hp) hg

theorem zgPos_rollStep {zg : ZGrid} (h : zgPos zg) (z : ℤ) : zgPos (rollStep zg z) := by
  unfold rollStep
  have hlvl : gridPos (zgGet zg z) := gridPos_zgGet h z
  have outer : ∀ (t : Grid) (acc : ZGrid), zgPos acc → (∀ p ∈ t, ∀ q ∈ p.2, 0 < q.2) →
      zgPos (t.foldl
        (fun a p => p.2.foldl (fun a q => zgIncCell a (z - 1) (pydiv2 p.1) (pydiv2 q.1) q.2) a)
        acc) := by
    intro t
    induction t with
    | nil => intro acc hacc _; exact hacc
    | cons p t' ih =>
      intro acc hacc hpos
      simp only [List.foldl_cons]
      have hinner : ∀ (ys : YCounts) (acc' : ZGrid), zgPos acc' → (∀ q ∈ ys, 0 < q.2) →
          zgPos (ys.foldl (fun a q => zgIncCell a (z - 1) (pydiv2 p.1) (pydiv2 q.1) q.2) acc') := by
        intro ys
        induction ys with
        | nil => intro acc' h' _; exact h'
        | cons q t'' ih' =>
          intro acc' h' hys
          simp only [List.foldl_cons]
          exact ih' _ (zgPos_zgIncCell h' (hys q (List.mem_cons_self _ _)))
            (fun r hr => hys r (List.mem_cons_of_mem _ hr))
      apply ih _ (hinner p.2 acc hacc (fun q hq => hpos p (List.mem_cons_self _ _) q hq))
      intro r hr
      exact hpos r (List.mem_cons_of_mem _ hr)
  exact outer (zgGet zg z) (zgViv zg z) (zgPos_zgViv h z) hlvl

theorem zgrid_from_grid_pos {g : Grid} (hg : gridPos g) (zoom min_zoom : ℤ) :
    zgPos (zgrid_from_grid g zoom min_zoom) := by
  unfold zgrid_from_grid
  apply rollLoop_inv zgPos (fun zg z h => zgPos_rollStep h z)
  exact zgPos_seedZ hg zoom

theorem gridNonneg_coarsenFrom :
    ∀ (f acc : Grid), gridNonneg acc → gridNonneg f → gridNonneg (coarsenFrom acc f) := by
  intro f
  induction f with
  | nil => intro acc h _; exact h
  | cons p t ih =>
    intro acc h hf
    simp only [coarsenFrom, List.foldl_cons]
    have hx : 0 ≤ p.1 := (hf p (List.mem_cons_self _ _)).1
    have hinner : ∀ (ys : YCounts) (acc' : Grid), gridNonneg acc' → (∀ q ∈ ys, 0 ≤ q.1) →
        gridNonneg (ys.foldl (fun a q => gridInc a (pydiv2 p.1) (pydiv2 q.1) q.2) acc') := by
      intro ys
      induction ys with
      | nil => intro acc' h' _; exact h'
      | cons q t' ih' =>
        intro acc' h' hys
        simp only [List.foldl_cons]
        exact ih' _ (gridNonneg_gridInc h' _ (pydiv2_nonneg hx)
          (pydiv2_nonneg (hys q (List.mem_cons_self _ _))))
          (fun r hr => hys r (List.mem_cons_of_mem _ hr))
    have := ih (p.2.foldl (fun a q => gridInc a (pydiv2 p.1) (pydiv2 q.1) q.2) acc)
      (hinner p.2 acc h (fun q hq => (hf p (List.mem_cons_self _ _)).2 q hq))
      (fun r hr => hf r (List.mem_cons_of_mem _ hr))
    simpa [coarsenFrom] using this

theorem gridNonneg_coarsenIter :
    ∀ (k : ℕ) (g : Grid), gridNonneg g → gridNonneg (coarsenIter k g) := by
  intro k
  induction k with
  | zero => intro g h; exact h
  | succ k ih =>
    intro g h
    exact ih (coarsen g) (gridNonneg_coarsenFrom g [] (by intro p hp; simp at hp) h)


/-! ## keyMax -/

theorem foldl_max_init_le :
    ∀ (l : ZGrid) (m : ℤ), m ≤ l.foldl (fun a p => max a p.1) m := by
  intro l
  induction l with
  | nil => intro m; exact le_refl m
  | cons q t ih =>
    intro m
    simp only [List.foldl_cons]
    exact le_trans (le_max_left m q.1) (ih (max m q.1))

theorem foldl_max_le :
    ∀ (l : ZGrid) (m b : ℤ), m ≤ b → (∀ p ∈ l, p.1 ≤ b) →
      l.foldl (fun a p => max a p.1) m ≤ b := by
  intro l
  induction l with
  | nil => intro m b h _; exact h
  | cons q t ih =>
    intro m b h hb
    simp only [List.foldl_cons]
    apply ih
    · exact max_le h (hb q (List.mem_cons_self _ _))
    · intro p hp
      exact hb p (List.mem_cons_of_mem _ hp)

theorem mem_le_foldl_max :
    ∀ (l : ZGrid) (m : ℤ) (p : ℤ × Grid), p ∈ l → p.1 ≤ l.foldl (fun a p => max a p.1) m := by
  intro l
  induction l with
  | nil => intro m p hp; simp at hp
  | cons q t ih =>
    intro m p hp
    simp only [List.foldl_cons]
    rcases List.mem_cons.1 hp with h | h
    · subst h
      exact le_trans (le_max_right m p.1) (foldl_max_init_le t (max m p.1))
    · exact ih (max m q.1) p h

theorem keyMax_eq {zg : ZGrid} {b : ℤ} (hmem : ∃ G, (b, G) ∈ zg)
    (hb : ∀ p ∈ zg, p.1 ≤ b) : keyMax zg = b := by
  obtain ⟨G, hG⟩ := hmem
  cases zg with
  | nil => simp at hG
  | cons q t =>
    unfold keyMax
    apply le_antisymm
    · apply foldl_max_le
      · exact hb _ (by simp)
      · exact hb
    · exact mem_le_foldl_max _ _ (b, G) hG

theorem pyramid_keyMax {g : Grid} (hg : gridWF g) {zoom min_zoom : ℤ}
    (hmz : min_zoom < zoom) :
    keyMax (zgrid_from_grid g zoom min_zoom) = zoom := by
  apply keyMax_eq
  · exact ⟨g, alGet_mem (pyramid_get_zoom hg hmz)⟩
  · intro p hp
    by_contra h
    have hmem : alGet (zgrid_from_grid g zoom min_zoom) p.1 = some p.2 := by
      apply alGet_eq_some_of_mem (pyramid_outer_sorted g zoom min_zoom)
      cases p
      exact hp
    rw [pyramid_get_high (by omega : zoom < p.1)] at hmem
    exact Option.noConfusion hmem

/-! ## Retile characterization -/

theorem rzGet_rz5Set (rz : RZGrid) (z x y sx sy c z' x' y' sx' sy' : ℤ) :
    rzGet (rz5Set rz z x y sx sy c) z' x' y' sx' sy' =
      if z' = z ∧ x' = x ∧ y' = y ∧ sx' = sx ∧ sy' = sy then some c
      else rzGet rz z' x' y' sx' sy' := by
  unfold rz5Set rzGet
  by_cases hz : z' = z
  · subst hz
    rw [alGet_alSet_self, Option.some_bind]
    by_cases hx : x' = x
    · subst hx
      rw [alGet_alSet_self, Option.some_bind]
      by_cases hy : y' = y
      · subst hy
        rw [alGet_alSet_self, Option.some_bind, cellGet_gridSet]
        by_cases hss : sx' = sx ∧ sy' = sy
        · rw [if_pos hss, if_pos ⟨rfl, rfl, rfl, hss.1, hss.2⟩]
        · rw [if_neg hss, if_neg (by tauto)]
          cases h1 : alGet rz z' with
          | none => simp [cellGet, alGet]
          | some l1 =>
            simp only [Option.getD_some, Option.some_bind]
            cases h2 : alGet l1 x' with
            | none => simp [cellGet, alGet]
            | some l2 =>
              simp only [Option.getD_some, Option.some_bind]
              cases h3 : alGet l2 y' <;> simp [cellGet, alGet]
      · rw [alGet_alSet_ne _ _ _ hy, if_neg (by tauto)]
        cases h1 : alGet rz z' with
        | none => simp [alGet]
        | some l1 =>
          simp only [Option.getD_some, Option.some_bind]
          cases h2 : alGet l1 x' <;> simp [alGet]
    · rw [alGet_alSet_ne _ _ _ hx, if_neg (by tauto)]
      cases h1 : alGet rz z' with
      | none => simp [alGet]
      | some l1 => simp
  · rw [alGet_alSet_ne _ _ _ hz, if_neg (by tauto)]


theorem rz_yyfold (z x y sx ymin ymax : ℤ) :
    ∀ (ys : YCounts) (acc : RZGrid), alSorted ys →
      ∀ (z' x' y' sx' sy' : ℤ),
      rzGet (ys.foldl (fun a r => if r.1 < ymin ∨ ymax < r.1 then a
          else rz5Set a z x y sx (r.1 - ymin) r.2) acc) z' x' y' sx' sy' =
      ovw (if z' = z ∧ x' = x ∧ y' = y ∧ sx' = sx ∧ ymin ≤ sy' + ymin ∧ sy' + ymin ≤ ymax
           then alGet ys (sy' + ymin) else none)
        (rzGet acc z' x' y' sx' sy') := by
  intro ys
  induction ys with
  | nil =>
    intro acc _ z' x' y' sx' sy'
    simp only [List.foldl_nil, alGet]
    by_cases hC : z' = z ∧ x' = x ∧ y' = y ∧ sx' = sx ∧ ymin ≤ sy' + ymin ∧ sy' + ymin ≤ ymax
    · rw [if_pos hC]; rfl
    · rw [if_neg hC]; rfl
  | cons r t ih =>
    intro acc hs z' x' y' sx' sy'
    rcases alSorted_cons.1 hs with ⟨hr, ht⟩
    simp only [List.foldl_cons]
    rw [ih _ ht]
    by_cases hfilt : r.1 < ymin ∨ ymax < r.1
    · rw [if_pos hfilt]
      by_cases h6 : z' = z ∧ x' = x ∧ y' = y ∧ sx' = sx ∧ ymin ≤ sy' + ymin ∧ sy' + ymin ≤ ymax
      · rw [if_pos h6, if_pos h6]
        have : alGet (r :: t) (sy' + ymin) = alGet t (sy' + ymin) := by
          simp only [alGet, if_neg (by omega : ¬ sy' + ymin = r.1)]
        rw [this]
      · rw [if_neg h6, if_neg h6]
    · rw [if_neg hfilt, rzGet_rz5Set]
      by_cases h6 : z' = z ∧ x' = x ∧ y' = y ∧ sx' = sx ∧ ymin ≤ sy' + ymin ∧ sy' + ymin ≤ ymax
      · obtain ⟨hz, hx, hy, hsx, hr1, hr2⟩ := h6
        have h6' : z' = z ∧ x' = x ∧ y' = y ∧ sx' = sx ∧ ymin ≤ sy' + ymin ∧ sy' + ymin ≤ ymax :=
          ⟨hz, hx, hy, hsx, hr1, hr2⟩
        rw [if_pos h6', if_pos h6']
        by_cases hk : sy' + ymin = r.1
        · have htnone : alGet t (sy' + ymin) = none := by
            apply alGet_eq_none_of_lt
            intro p hp
            have := hr p hp
            omega
          have hcons : alGet (r :: t) (sy' + ymin) = some r.2 := by
            simp only [alGet, if_pos hk]
          have h5' : z' = z ∧ x' = x ∧ y' = y ∧ sx' = sx ∧ sy' = r.1 - ymin :=
            ⟨hz, hx, hy, hsx, by omega⟩
          rw [htnone, hcons, if_pos h5']
          rfl
        · have hcons : alGet (r :: t) (sy' + ymin) = alGet t (sy' + ymin) := by
            simp only [alGet, if_neg hk]
          have h5' : ¬ (z' = z ∧ x' = x ∧ y' = y ∧ sx' = sx ∧ sy' = r.1 - ymin) := by
            rintro ⟨_, _, _, _, h5⟩
            omega
          rw [hcons, if_neg h5']
      · have h5' : ¬ (z' = z ∧ x' = x ∧ y' = y ∧ sx' = sx ∧ sy' = r.1 - ymin) := by
          rintro ⟨h1, h2, h3, h4, h5⟩
          exact h6 ⟨h1, h2, h3, h4, by omega, by omega⟩
        rw [if_neg h6, if_neg h6, if_neg h5']


theorem blockGet_nil (p x y sx sy : ℤ) : blockGet ([] : Grid) p x y sx sy = none := by
  unfold blockGet
  by_cases h : sx < 0 ∨ p - 1 < sx ∨ sy < 0 ∨ p - 1 < sy
  · rw [if_pos h]
  · rw [if_neg h]
    rfl

theorem blockGet_cons_skip {q : ℤ × YCounts} {t : Grid} {p x y : ℤ}
    (hq : q.1 < x * p ∨ (x + 1) * p - 1 < q.1) (sx sy : ℤ) :
    blockGet (q :: t) p x y sx sy = blockGet t p x y sx sy := by
  have hlin : (x + 1) * p = x * p + p := by ring
  unfold blockGet
  by_cases h : sx < 0 ∨ p - 1 < sx ∨ sy < 0 ∨ p - 1 < sy
  · rw [if_pos h, if_pos h]
  · rw [if_neg h, if_neg h, cellGet_cons, if_neg (by omega : ¬ x * p + sx = q.1)]

theorem blockGet_cons_ne {q : ℤ × YCounts} {t : Grid} {p x y sx : ℤ}
    (hne : x * p + sx ≠ q.1) (sy : ℤ) :
    blockGet (q :: t) p x y sx sy = blockGet t p x y sx sy := by
  unfold blockGet
  by_cases h : sx < 0 ∨ p - 1 < sx ∨ sy < 0 ∨ p - 1 < sy
  · rw [if_pos h, if_pos h]
  · rw [if_neg h, if_neg h, cellGet_cons, if_neg hne]

theorem rzGet_rzStepXY (z x y p : ℤ) :
    ∀ (fine : Grid) (acc : RZGrid), gridSorted fine →
      ∀ (z' x' y' sx' sy' : ℤ),
      rzGet (rzStepXY acc fine p z x y) z' x' y' sx' sy' =
      ovw (if z' = z ∧ x' = x ∧ y' = y then blockGet fine p x y sx' sy' else none)
        (rzGet acc z' x' y' sx' sy') := by
  intro fine
  induction fine with
  | nil =>
    intro acc _ z' x' y' sx' sy'
    rw [blockGet_nil]
    by_cases hC3 : z' = z ∧ x' = x ∧ y' = y
    · rw [if_pos hC3]; rfl
    · rw [if_neg hC3]; rfl
  | cons q t ih =>
    intro acc hs z' x' y' sx' sy'
    have hlinx : (x + 1) * p = x * p + p := by ring
    have hliny : (y + 1) * p = y * p + p := by ring
    have houter := alSorted_cons.1 hs.1
    have hts : gridSorted t := ⟨houter.2, fun r hr => hs.2 r (List.mem_cons_of_mem _ hr)⟩
    have hqs : alSorted q.2 := hs.2 q (List.mem_cons_self _ _)
    simp only [rzStepXY, List.foldl_cons]
    have ihh := ih ((if q.1 < x * p ∨ (x + 1) * p - 1 < q.1 then acc
      else q.2.foldl (fun acc r => if r.1 < y * p ∨ (y + 1) * p - 1 < r.1 then acc
        else rz5Set acc z x y (q.1 - x * p) (r.1 - y * p) r.2) acc)) hts z' x' y' sx' sy'
    simp only [rzStepXY] at ihh
    rw [ihh]
    by_cases hqf : q.1 < x * p ∨ (x + 1) * p - 1 < q.1
    · rw [if_pos hqf]
      by_cases hC3 : z' = z ∧ x' = x ∧ y' = y
      · rw [if_pos hC3, if_pos hC3, blockGet_cons_skip hqf]
      · rw [if_neg hC3, if_neg hC3]
    · rw [if_neg hqf,
        rz_yyfold z x y (q.1 - x * p) (y * p) ((y + 1) * p - 1) q.2 acc hqs z' x' y' sx' sy']
      by_cases hC3 : z' = z ∧ x' = x ∧ y' = y
      · obtain ⟨hz, hx, hy⟩ := hC3
        have hC3' : z' = z ∧ x' = x ∧ y' = y := ⟨hz, hx, hy⟩
        rw [if_pos hC3', if_pos hC3']
        by_cases hsx : sx' = q.1 - x * p
        · by_cases hyr : y * p ≤ sy' + y * p ∧ sy' + y * p ≤ (y + 1) * p - 1
          · have h6' : z' = z ∧ x' = x ∧ y' = y ∧ sx' = q.1 - x * p ∧
                y * p ≤ sy' + y * p ∧ sy' + y * p ≤ (y + 1) * p - 1 :=
              ⟨hz, hx, hy, hsx, hyr.1, hyr.2⟩
            rw [if_pos h6']
            have htb : blockGet t p x y sx' sy' = none := by
              unfold blockGet
              rw [if_neg (by omega : ¬ (sx' < 0 ∨ p - 1 < sx' ∨ sy' < 0 ∨ p - 1 < sy'))]
              unfold cellGet
              have : alGet t (x * p + sx') = none := by
                apply alGet_eq_none_of_lt
                intro r hr
                have := houter.1 r hr
                omega
              rw [this]
              rfl
            have hqb : blockGet (q :: t) p x y sx' sy' = alGet q.2 (sy' + y * p) := by
              unfold blockGet
              rw [if_neg (by omega : ¬ (sx' < 0 ∨ p - 1 < sx' ∨ sy' < 0 ∨ p - 1 < sy'))]
              rw [cellGet_cons, if_pos (by omega : x * p + sx' = q.1)]
              have : y * p + sy' = sy' + y * p := by ring
              rw [this]
            rw [htb, hqb]
            cases halq : alGet q.2 (sy' + y * p) with
            | none => rfl
            | some c => rfl
          · have h6' : ¬ (z' = z ∧ x' = x ∧ y' = y ∧ sx' = q.1 - x * p ∧
                y * p ≤ sy' + y * p ∧ sy' + y * p ≤ (y + 1) * p - 1) := by
              rintro ⟨_, _, _, _, h5, h6⟩
              exact hyr ⟨h5, h6⟩
            rw [if_neg h6']
            have hbad : sy' < 0 ∨ p - 1 < sy' := by omega
            have htb : blockGet t p x y sx' sy' = none := by
              unfold blockGet
              rw [if_pos (by omega : sx' < 0 ∨ p - 1 < sx' ∨ sy' < 0 ∨ p - 1 < sy')]
            have hqb : blockGet (q :: t) p x y sx' sy' = none := by
              unfold blockGet
              rw [if_pos (by omega : sx' < 0 ∨ p - 1 < sx' ∨ sy' < 0 ∨ p - 1 < sy')]
            rw [htb, hqb]
            rfl
        · have h6' : ¬ (z' = z ∧ x' = x ∧ y' = y ∧ sx' = q.1 - x * p ∧
              y * p ≤ sy' + y * p ∧ sy' + y * p ≤ (y + 1) * p - 1) := by
            rintro ⟨_, _, _, h4, _⟩
            exact hsx h4
          rw [if_neg h6', blockGet_cons_ne (by omega : x * p + sx' ≠ q.1)]
          rfl
      · have h6' : ¬ (z' = z ∧ x' = x ∧ y' = y ∧ sx' = q.1 - x * p ∧
            y * p ≤ sy' + y * p ∧ sy' + y * p ≤ (y + 1) * p - 1) := by
          rintro ⟨h1, h2, h3, _⟩
          exact hC3 ⟨h1, h2, h3⟩
        rw [if_neg h6', if_neg hC3, if_neg hC3]
        rfl


theorem rz_xygroup (z x₀ p : ℤ) (fine : Grid) (hfine : gridSorted fine) :
    ∀ (ys : YCounts) (acc : RZGrid), alSorted ys →
      ∀ (z' x' y' sx' sy' : ℤ),
      rzGet (ys.foldl (fun a q => rzStepXY a fine p z x₀ q.1) acc) z' x' y' sx' sy' =
      ovw (if z' = z ∧ x' = x₀ ∧ (alGet ys y').isSome
           then blockGet fine p x₀ y' sx' sy' else none)
        (rzGet acc z' x' y' sx' sy') := by
  intro ys
  induction ys with
  | nil =>
    intro acc _ z' x' y' sx' sy'
    simp only [List.foldl_nil, alGet]
    rw [if_neg (by simp)]
    rfl
  | cons q t ih =>
    intro acc hs z' x' y' sx' sy'
    rcases alSorted_cons.1 hs with ⟨hq, ht⟩
    simp only [List.foldl_cons]
    rw [ih _ ht, rzGet_rzStepXY z x₀ q.1 p fine acc hfine]
    by_cases hC : z' = z ∧ x' = x₀
    · obtain ⟨hz, hx⟩ := hC
      by_cases hy : y' = q.1
      · have htnone : alGet t y' = none := by
          apply alGet_eq_none_of_lt
          intro r hr
          have := hq r hr
          omega
        have h1 : ¬ (z' = z ∧ x' = x₀ ∧ (alGet t y').isSome) := by
          rw [htnone]
          rintro ⟨_, _, h⟩
          simp at h
        have h2 : z' = z ∧ x' = x₀ ∧ y' = q.1 := ⟨hz, hx, hy⟩
        have h3 : z' = z ∧ x' = x₀ ∧ (alGet (q :: t) y').isSome := by
          refine ⟨hz, hx, ?_⟩
          simp only [alGet, if_pos hy]
          rfl
        rw [if_neg h1, if_pos h2, if_pos h3, hy]
        rfl
      · have h2 : ¬ (z' = z ∧ x' = x₀ ∧ y' = q.1) := by
          rintro ⟨_, _, h⟩
          exact hy h
        have hcons : alGet (q :: t) y' = alGet t y' := by
          simp only [alGet, if_neg hy]
        rw [if_neg h2, hcons]
        rfl
    · have h1 : ¬ (z' = z ∧ x' = x₀ ∧ (alGet t y').isSome) := by
        rintro ⟨h1, h2, _⟩
        exact hC ⟨h1, h2⟩
      have h2 : ¬ (z' = z ∧ x' = x₀ ∧ y' = q.1) := by
        rintro ⟨h1, h2, _⟩
        exact hC ⟨h1, h2⟩
      have h3 : ¬ (z' = z ∧ x' = x₀ ∧ (alGet (q :: t) y').isSome) := by
        rintro ⟨h1, h2, _⟩
        exact hC ⟨h1, h2⟩
      rw [if_neg h1, if_neg h2, if_neg h3]
      rfl

theorem rzGet_rzStepZ (zg : ZGrid) (depth : ℕ) (z : ℤ) (acc : RZGrid)
    (hlvl : gridSorted (zgGet zg z)) (hfine : gridSorted (zgGet zg (z + depth)))
    (z' x' y' sx' sy' : ℤ) :
    rzGet (rzStepZ zg depth acc z) z' x' y' sx' sy' =
    ovw (if z' = z ∧ (cellGet (zgGet zg z) x' y').isSome
         then blockGet (zgGet zg (z + depth)) (2 ^ depth) x' y' sx' sy'
         else none)
      (rzGet acc z' x' y' sx' sy') := by
  unfold rzStepZ
  have main : ∀ (rows : Grid) (acc : RZGrid), gridSorted rows →
      rzGet (rows.foldl (fun a p => p.2.foldl
          (fun a q => rzStepXY a (zgGet zg (z + depth)) (2 ^ depth) z p.1 q.1) a) acc)
        z' x' y' sx' sy' =
      ovw (if z' = z ∧ (cellGet rows x' y').isSome
           then blockGet (zgGet zg (z + depth)) (2 ^ depth) x' y' sx' sy'
           else none)
        (rzGet acc z' x' y' sx' sy') := by
    intro rows
    induction rows with
    | nil =>
      intro acc _
      simp only [List.foldl_nil]
      rw [if_neg (by simp [cellGet, alGet])]
      rfl
    | cons prow t ih =>
      intro acc hrs
      have houter := alSorted_cons.1 hrs.1
      have hts : gridSorted t := ⟨houter.2, fun r hr => hrs.2 r (List.mem_cons_of_mem _ hr)⟩
      have hps : alSorted prow.2 := hrs.2 prow (List.mem_cons_self _ _)
      simp only [List.foldl_cons]
      rw [ih _ hts, rz_xygroup z prow.1 (2 ^ depth) (zgGet zg (z + depth)) hfine prow.2 acc hps]
      by_cases hz : z' = z
      · by_cases hx : x' = prow.1
        · have htnone : cellGet t x' y' = none := by
            unfold cellGet
            have : alGet t x' = none := by
              apply alGet_eq_none_of_lt
              intro r hr
              have := houter.1 r hr
              omega
            rw [this]
            rfl
          have h1 : ¬ (z' = z ∧ (cellGet t x' y').isSome) := by
            rw [htnone]
            rintro ⟨_, h⟩
            simp at h
          have hcc : cellGet (prow :: t) x' y' = alGet prow.2 y' := by
            rw [cellGet_cons, if_pos hx]
          rw [if_neg h1, hcc]
          by_cases h4 : (alGet prow.2 y').isSome
          · have h5 : z' = z ∧ x' = prow.1 ∧ (alGet prow.2 y').isSome := ⟨hz, hx, h4⟩
            have h6 : z' = z ∧ (alGet prow.2 y').isSome := ⟨hz, h4⟩
            rw [if_pos h5, if_pos h6, hx]
            rfl
          · have h5 : ¬ (z' = z ∧ x' = prow.1 ∧ (alGet prow.2 y').isSome) := by
              rintro ⟨_, _, h⟩
              exact h4 h
            have h6 : ¬ (z' = z ∧ (alGet prow.2 y').isSome) := by
              rintro ⟨_, h⟩
              exact h4 h
            rw [if_neg h5, if_neg h6]
            rfl
        · have h5 : ¬ (z' = z ∧ x' = prow.1 ∧ (alGet prow.2 y').isSome) := by
            rintro ⟨_, h, _⟩
            exact hx h
          have hcc : cellGet (prow :: t) x' y' = cellGet t x' y' := by
            rw [cellGet_cons, if_neg hx]
          rw [if_neg h5, hcc]
          rfl
      · have h1 : ¬ (z' = z ∧ (cellGet t x' y').isSome) := by
          rintro ⟨h, _⟩
          exact hz h
        have h5 : ¬ (z' = z ∧ x' = prow.1 ∧ (alGet prow.2 y').isSome) := by
          rintro ⟨h, _, _⟩
          exact hz h
        have h6 : ¬ (z' = z ∧ (cellGet (prow :: t) x' y').isSome) := by
          rintro ⟨h, _⟩
          exact hz h
        rw [if_neg h1, if_neg h5, if_neg h6]
        rfl
  exact main (zgGet zg z) acc hlvl

theorem mem_intRange0 (n : ℕ) (z : ℤ) : z ∈ intRange0 n ↔ 0 ≤ z ∧ z < (n : ℤ) := by
  unfold intRange0
  constructor
  · intro h
    obtain ⟨a, ha, hfa⟩ := List.mem_map.1 h
    rw [List.mem_range] at ha
    have hfa' : (a : ℤ) = z := hfa
    omega
  · intro h
    apply List.mem_map.2
    refine ⟨z.toNat, List.mem_range.2 (by omega), ?_⟩
    show (z.toNat : ℤ) = z
    omega

theorem rz_zfold (zg : ZGrid) (depth : ℕ) (hs : zgSortedAll zg) (z x y sx sy : ℤ) :
    ∀ (zs : List ℤ) (acc : RZGrid),
      rzGet (zs.foldl (rzStepZ zg depth) acc) z x y sx sy =
      ovw (if z ∈ zs ∧ (cellGet (zgGet zg z) x y).isSome
           then blockGet (zgGet zg (z + depth)) (2 ^ depth) x y sx sy
           else none)
        (rzGet acc z x y sx sy) := by
  intro zs
  induction zs with
  | nil =>
    intro acc
    simp only [List.foldl_nil, List.not_mem_nil, false_and, if_neg (not_false)]
    rfl
  | cons z₀ t ih =>
    intro acc
    simp only [List.foldl_cons]
    rw [ih, rzGet_rzStepZ zg depth z₀ acc (hs z₀) (hs (z₀ + depth))]
    by_cases hpres : (cellGet (zgGet zg z) x y).isSome
    · by_cases hmem : z ∈ t
      · have h1 : z ∈ t ∧ (cellGet (zgGet zg z) x y).isSome := ⟨hmem, hpres⟩
        have h2 : z ∈ z₀ :: t ∧ (cellGet (zgGet zg z) x y).isSome :=
          ⟨List.mem_cons_of_mem _ hmem, hpres⟩
        rw [if_pos h1, if_pos h2]
        by_cases hz0 : z = z₀
        · subst hz0
          have h3 : z = z ∧ (cellGet (zgGet zg z) x y).isSome := ⟨rfl, hpres⟩
          rw [if_pos h3]
          cases blockGet (zgGet zg (z + depth)) (2 ^ depth) x y sx sy <;> rfl
        · have h3 : ¬ (z = z₀ ∧ (cellGet (zgGet zg z₀) x y).isSome) := by
            rintro ⟨h, _⟩
            exact hz0 h
          rw [if_neg h3]
          cases blockGet (zgGet zg (z + depth)) (2 ^ depth) x y sx sy <;> rfl
      · have h1 : ¬ (z ∈ t ∧ (cellGet (zgGet zg z) x y).isSome) := by
          rintro ⟨h, _⟩
          exact hmem h
        rw [if_neg h1]
        by_cases hz0 : z = z₀
        · subst hz0
          have h3 : z = z ∧ (cellGet (zgGet zg z) x y).isSome := ⟨rfl, hpres⟩
          have h2 : z ∈ z :: t ∧ (cellGet (zgGet zg z) x y).isSome :=
            ⟨List.mem_cons_self _ _, hpres⟩
          rw [if_pos h3, if_pos h2]
          cases blockGet (zgGet zg (z + depth)) (2 ^ depth) x y sx sy <;> rfl
        · have h3 : ¬ (z = z₀ ∧ (cellGet (zgGet zg z₀) x y).isSome) := by
            rintro ⟨h, _⟩
            exact hz0 h
          have h2 : ¬ (z ∈ z₀ :: t ∧ (cellGet (zgGet zg z) x y).isSome) := by
            rintro ⟨h, _⟩
            rcases List.mem_cons.1 h with h' | h'
            · exact hz0 h'
            · exact hmem h'
          rw [if_neg h3, if_neg h2]
          rfl
    · have h1 : ¬ (z ∈ t ∧ (cellGet (zgGet zg z) x y).isSome) := by
        rintro ⟨_, h⟩
        exact hpres h
      have h2 : ¬ (z ∈ z₀ :: t ∧ (cellGet (zgGet zg z) x y).isSome) := by
        rintro ⟨_, h⟩
        exact hpres h
      rw [if_neg h1, if_neg h2]
      by_cases hz0 : z = z₀
      · subst hz0
        have h3 : ¬ (z = z ∧ (cellGet (zgGet zg z) x y).isSome) := by
          rintro ⟨_, h⟩
          exact hpres h
        rw [if_neg h3]
        rfl
      · have h3 : ¬ (z = z₀ ∧ (cellGet (zgGet zg z₀) x y).isSome) := by
          rintro ⟨h, _⟩
          exact hz0 h
        rw [if_neg h3]
        rfl

theorem rzGet_rzgrid_from_zgrid (zg : ZGrid) (depth : ℕ) (hs : zgSortedAll zg)
    (z x y sx sy : ℤ) :
    rzGet (rzgrid_from_zgrid zg depth) z x y sx sy =
      if 0 ≤ z ∧ z ≤ keyMax zg - depth ∧ (cellGet (zgGet zg z) x y).isSome
      then blockGet (zgGet zg (z + depth)) (2 ^ depth) x y sx sy
      else none := by
  unfold rzgrid_from_zgrid
  rw [rz_zfold zg depth hs z x y sx sy]
  have hrz : rzGet ([] : RZGrid) z x y sx sy = none := rfl
  rw [hrz]
  have hmem : z ∈ intRange0 (keyMax zg - depth + 1).toNat ↔
      0 ≤ z ∧ z ≤ keyMax zg - depth := by
    rw [mem_intRange0]
    omega
  by_cases hc : 0 ≤ z ∧ z ≤ keyMax zg - depth ∧ (cellGet (zgGet zg z) x y).isSome
  · have h1 : z ∈ intRange0 (keyMax zg - depth + 1).toNat ∧
        (cellGet (zgGet zg z) x y).isSome := ⟨hmem.2 ⟨hc.1, hc.2.1⟩, hc.2.2⟩
    rw [if_pos h1, if_pos hc]
    cases blockGet (zgGet zg (z + depth)) (2 ^ depth) x y sx sy <;> rfl
  · have h1 : ¬ (z ∈ intRange0 (keyMax zg - depth + 1).toNat ∧
        (cellGet (zgGet zg z) x y).isSome) := by
      rintro ⟨h, h'⟩
      exact hc ⟨(hmem.1 h).1, (hmem.1 h).2, h'⟩
    rw [if_neg h1, if_neg hc]
    rfl


/-! ## Ancestor presence under coarsening -/

theorem cellGet_some_mem {f : Grid} {u v c : ℤ} (h : cellGet f u v = some c) :
    ∃ ys, (u, ys) ∈ f ∧ (v, c) ∈ ys := by
  unfold cellGet at h
  cases hg : alGet f u with
  | none => rw [hg] at h; simp at h
  | some ys =>
    rw [hg] at h
    simp only [Option.some_bind] at h
    exact ⟨ys, alGet_mem hg, alGet_mem h⟩

theorem isSome_cellGet_gridInc {a : Grid} {u v : ℤ} (X Y c : ℤ)
    (h : (cellGet a u v).isSome) : (cellGet (gridInc a X Y c) u v).isSome := by
  rw [cellGet_gridInc]
  by_cases hc : u = X ∧ v = Y
  · rw [if_pos hc]; rfl
  · rw [if_neg hc]; exact h

theorem isSome_cellGet_gridInc_self (a : Grid) (X Y c : ℤ) :
    (cellGet (gridInc a X Y c) X Y).isSome := by
  rw [cellGet_gridInc, if_pos ⟨rfl, rfl⟩]
  rfl

theorem innerCoarsen_persist (X : ℤ) :
    ∀ (ys : YCounts) (a : Grid) {u v : ℤ}, (cellGet a u v).isSome →
      (cellGet (ys.foldl (fun a q => gridInc a X (pydiv2 q.1) q.2) a) u v).isSome := by
  intro ys
  induction ys with
  | nil => intro a u v h; exact h
  | cons q t ih =>
    intro a u v h
    simp only [List.foldl_cons]
    exact ih _ (isSome_cellGet_gridInc _ _ _ h)

theorem coarsenFrom_persist :
    ∀ (f acc : Grid) {u v : ℤ}, (cellGet acc u v).isSome →
      (cellGet (coarsenFrom acc f) u v).isSome := by
  intro f
  induction f with
  | nil => intro acc u v h; exact h
  | cons p t ih =>
    intro acc u v h
    simp only [coarsenFrom, List.foldl_cons]
    have hstep := innerCoarsen_persist (pydiv2 p.1) p.2 acc h
    have := ih (p.2.foldl (fun a q => gridInc a (pydiv2 p.1) (pydiv2 q.1) q.2) acc) hstep
    simpa [coarsenFrom] using this

theorem innerCoarsen_hits (X : ℤ) :
    ∀ (ys : YCounts) (a : Grid) {v c : ℤ}, (v, c) ∈ ys →
      (cellGet (ys.foldl (fun a q => gridInc a X (pydiv2 q.1) q.2) a) X (pydiv2 v)).isSome := by
  intro ys
  induction ys with
  | nil => intro a v c h; simp at h
  | cons q t ih =>
    intro a v c h
    simp only [List.foldl_cons]
    rcases List.mem_cons.1 h with h' | h'
    · have hq : q.1 = v := by rw [← h']
      rw [← hq]
      exact innerCoarsen_persist X t _ (isSome_cellGet_gridInc_self a X (pydiv2 q.1) q.2)
    · exact ih _ h'

theorem coarsenFrom_hits :
    ∀ (f acc : Grid) {u v c : ℤ} {ys : YCounts}, (u, ys) ∈ f → (v, c) ∈ ys →
      (cellGet (coarsenFrom acc f) (pydiv2 u) (pydiv2 v)).isSome := by
  intro f
  induction f with
  | nil => intro acc u v c ys h _; simp at h
  | cons p t ih =>
    intro acc u v c ys hf hy
    simp only [coarsenFrom, List.foldl_cons]
    rcases List.mem_cons.1 hf with h' | h'
    · have hp1 : p.1 = u := by rw [← h']
      have hp2 : p.2 = ys := by rw [← h']
      have hin : (cellGet (p.2.foldl (fun a q => gridInc a (pydiv2 p.1) (pydiv2 q.1) q.2) acc)
          (pydiv2 u) (pydiv2 v)).isSome := by
        rw [hp1, hp2]
        exact innerCoarsen_hits (pydiv2 u) ys acc hy
      have := coarsenFrom_persist t _ hin
      simpa [coarsenFrom] using this
    · have := ih (p.2.foldl (fun a q => gridInc a (pydiv2 p.1) (pydiv2 q.1) q.2) acc) h' hy
      simpa [coarsenFrom] using this

theorem coarsen_present {f : Grid} {u v : ℤ} (h : (cellGet f u v).isSome) :
    (cellGet (coarsen f) (pydiv2 u) (pydiv2 v)).isSome := by
  cases hc : cellGet f u v with
  | none => rw [hc] at h; simp at h
  | some c =>
    obtain ⟨ys, h1, h2⟩ := cellGet_some_mem hc
    exact coarsenFrom_hits f [] h1 h2

theorem coarsenIter_present :
    ∀ (d : ℕ) (f : Grid) {u v : ℤ}, (cellGet f u v).isSome →
      (cellGet (coarsenIter d f) (pydiv2iter d u) (pydiv2iter d v)).isSome := by
  intro d
  induction d with
  | zero => intro f u v h; exact h
  | succ d ih =>
    intro f u v h
    exact ih (coarsen f) (coarsen_present h)

theorem pydiv2iter_window :
    ∀ (d : ℕ) {x sx : ℤ}, 0 ≤ x → 0 ≤ sx → sx < 2 ^ d →
      pydiv2iter d (x * 2 ^ d + sx) = x := by
  intro d
  induction d with
  | zero =>
    intro x sx hx hsx hlt
    have : sx = 0 := by
      simp at hlt
      omega
    subst this
    simp [pydiv2iter]
  | succ d ih =>
    intro x sx hx hsx hlt
    have hrw : x * 2 ^ (d + 1) + sx = sx + 2 * (x * 2 ^ d) := by ring
    have hu : 0 ≤ x * 2 ^ (d + 1) + sx := by positivity
    have hdiv : pydiv2 (x * 2 ^ (d + 1) + sx) = x * 2 ^ d + sx / 2 := by
      unfold pydiv2
      rw [Int.tdiv_eq_ediv hu (by norm_num), hrw,
        Int.add_mul_ediv_left sx (x * 2 ^ d) (by norm_num : (2:ℤ) ≠ 0)]
      ring
    show pydiv2iter d (pydiv2 (x * 2 ^ (d + 1) + sx)) = x
    rw [hdiv]
    apply ih hx (Int.ediv_nonneg hsx (by norm_num))
    have h2 : (2:ℤ) ^ (d + 1) = 2 ^ d * 2 := by ring
    rw [h2] at hlt
    omega

theorem coarsenIter_add :
    ∀ (m d : ℕ) (g : Grid), coarsenIter (m + d) g = coarsenIter d (coarsenIter m g) := by
  intro m
  induction m with
  | zero => intro d g; rw [Nat.zero_add]; rfl
  | succ m ih =>
    intro d g
    have h1 : m + 1 + d = (m + d) + 1 := by omega
    rw [h1]
    show coarsenIter (m + d) (coarsen g) = coarsenIter d (coarsenIter (m + 1) g)
    rw [ih d (coarsen g)]
    rfl

theorem cellGet_some_nonneg {f : Grid} (hf : gridNonneg f) {u v c : ℤ}
    (h : cellGet f u v = some c) : 0 ≤ u ∧ 0 ≤ v := by
  obtain ⟨ys, h1, h2⟩ := cellGet_some_mem h
  exact ⟨(hf _ h1).1, (hf _ h1).2 _ h2⟩


/-! ## Input mutation through defaultdict reads -/

theorem rz_inputAfter_levels (zg : ZGrid) (depth : ℕ) :
    ∀ l : ℤ, alGet (rzgrid_from_zgrid_inputAfter zg depth) l = alGet zg l ∨
      (alGet zg l = none ∧ alGet (rzgrid_from_zgrid_inputAfter zg depth) l = some []) := by
  unfold rzgrid_from_zgrid_inputAfter
  have inv : ∀ (zs : List ℤ) (acc : ZGrid),
      (∀ l : ℤ, alGet acc l = alGet zg l ∨ (alGet zg l = none ∧ alGet acc l = some [])) →
      ∀ l : ℤ,
        alGet (zs.foldl (fun acc z =>
          let acc1 := zgViv acc z
          if hasCell (zgGet acc1 z) then zgViv acc1 (z + depth) else acc1) acc) l = alGet zg l ∨
        (alGet zg l = none ∧
          alGet (zs.foldl (fun acc z =>
            let acc1 := zgViv acc z
            if hasCell (zgGet acc1 z) then zgViv acc1 (z + depth) else acc1) acc) l = some []) := by
    intro zs
    induction zs with
    | nil => intro acc h l; exact h l
    | cons z₀ t ih =>
      intro acc h l
      simp only [List.foldl_cons]
      apply ih
      intro l'
      have hviv : ∀ (a : ZGrid) (w : ℤ),
          (∀ l : ℤ, alGet a l = alGet zg l ∨ (alGet zg l = none ∧ alGet a l = some [])) →
          ∀ l : ℤ, alGet (zgViv a w) l = alGet zg l ∨
            (alGet zg l = none ∧ alGet (zgViv a w) l = some []) := by
        intro a w ha l
        rw [alGet_zgViv]
        by_cases hl : l = w
        · rw [if_pos hl]
          subst hl
          rcases ha l with h' | ⟨h1, h2⟩
          · cases hg : alGet a l with
            | some G =>
              left
              rw [← h']
              unfold zgGet
              rw [hg]
              rfl
            | none =>
              right
              rw [hg] at h'
              refine ⟨h'.symm, ?_⟩
              unfold zgGet
              rw [hg]
              rfl
          · right
            refine ⟨h1, ?_⟩
            unfold zgGet
            rw [h2]
            rfl
        · rw [if_neg hl]
          exact ha l
      by_cases hcell : hasCell (zgGet (zgViv acc z₀) z₀)
      · simp only [if_pos hcell]
        exact hviv (zgViv acc z₀) (z₀ + depth) (hviv acc z₀ h) l'
      · simp only [if_neg hcell]
        exact hviv acc z₀ h l'
  exact inv _ zg (fun l => Or.inl rfl)

theorem cellGet_alViv (b : Grid) (xx : ℤ) (sx sy : ℤ) :
    cellGet (alViv b xx []) sx sy = cellGet b sx sy := by
  unfold alViv
  cases h : alGet b xx with
  | some ys => rfl
  | none =>
    unfold cellGet
    by_cases hsx : sx = xx
    · subst hsx
      rw [alGet_alSet_self, h]
      simp [alGet]
    · rw [alGet_alSet_ne _ _ _ hsx]

theorem rzGet_rzVivPath (rz : RZGrid) (z x y xx : ℤ) (z' x' y' sx' sy' : ℤ) :
    rzGet (rzVivPath rz z x y xx) z' x' y' sx' sy' = rzGet rz z' x' y' sx' sy' := by
  unfold rzVivPath rzGet
  by_cases hz : z' = z
  · subst hz
    rw [alGet_alSet_self, Option.some_bind]
    by_cases hx : x' = x
    · subst hx
      rw [alGet_alSet_self, Option.some_bind]
      by_cases hy : y' = y
      · subst hy
        rw [alGet_alSet_self, Option.some_bind, cellGet_alViv]
        cases h1 : alGet rz z' with
        | none => simp [cellGet, alGet]
        | some l1 =>
          simp only [Option.getD_some, Option.some_bind]
          cases h2 : alGet l1 x' with
          | none => simp [cellGet, alGet]
          | some l2 =>
            simp only [Option.getD_some, Option.some_bind]
            cases h3 : alGet l2 y' <;> simp [cellGet, alGet]
      · rw [alGet_alSet_ne _ _ _ hy]
        cases h1 : alGet rz z' with
        | none => simp [alGet]
        | some l1 =>
          simp only [Option.getD_some, Option.some_bind]
          cases h2 : alGet l1 x' <;> simp [alGet]
    · rw [alGet_alSet_ne _ _ _ hx]
      cases h1 : alGet rz z' with
      | none => simp [alGet]
      | some l1 => simp
  · rw [alGet_alSet_ne _ _ _ hz]

theorem rzGet_geojson_inputAfter (rz : RZGrid) (x y zoom : ℤ) (depth : ℕ)
    (z' x' y' sx' sy' : ℤ) :
    rzGet (rzgrid_to_geojson_inputAfter rz x y zoom depth) z' x' y' sx' sy' =
      rzGet rz z' x' y' sx' sy' := by
  unfold rzgrid_to_geojson_inputAfter
  have inv : ∀ (zs : List ℤ) (acc : RZGrid),
      rzGet acc z' x' y' sx' sy' = rzGet rz z' x' y' sx' sy' →
      rzGet (zs.foldl (fun acc xx => rzVivPath acc zoom x y xx) acc) z' x' y' sx' sy' =
        rzGet rz z' x' y' sx' sy' := by
    intro zs
    induction zs with
    | nil => intro acc h; exact h
    | cons xx t ih =>
      intro acc h
      simp only [List.foldl_cons]
      apply ih
      rw [rzGet_rzVivPath]
      exact h
  exact inv _ rz rfl


/-! ## Renderer characterization -/

theorem geojson_inner (b : Grid) (x y : ℤ) (zoom depth : ℕ) (xx : ℕ) :
    ∀ (m : List ℕ) (gjos : List GeoBox),
      m.foldl (fun (gjos : List GeoBox) (yy : ℕ) => match cellGet b (xx : ℤ) (yy : ℤ) with
        | none => gjos
        | some c => gjos ++ [boxOf x y zoom depth (xx : ℤ) (yy : ℤ) c]) gjos =
      gjos ++ m.filterMap (fun (yy : ℕ) => (cellGet b (xx : ℤ) (yy : ℤ)).map
        (fun c => boxOf x y zoom depth (xx : ℤ) (yy : ℤ) c)) := by
  intro m
  induction m with
  | nil => intro gjos; simp
  | cons yy t ih =>
    intro gjos
    simp only [List.foldl_cons, List.filterMap_cons]
    cases h : cellGet b (xx : ℤ) (yy : ℤ) with
    | none =>
      rw [ih]
      rfl
    | some c =>
      rw [ih]
      simp [List.append_assoc]

theorem geojson_outer (b : Grid) (x y : ℤ) (zoom depth : ℕ) (n : ℕ) :
    ∀ (l : List ℕ) (acc : List GeoBox),
      l.foldl (fun (gjos : List GeoBox) (xx : ℕ) =>
        (List.range n).foldl (fun (gjos : List GeoBox) (yy : ℕ) =>
          match cellGet b (xx : ℤ) (yy : ℤ) with
          | none => gjos
          | some c => gjos ++ [boxOf x y zoom depth (xx : ℤ) (yy : ℤ) c]) gjos) acc =
      acc ++ l.flatMap (fun (xx : ℕ) => (List.range n).filterMap
        (fun (yy : ℕ) => (cellGet b (xx : ℤ) (yy : ℤ)).map
          (fun c => boxOf x y zoom depth (xx : ℤ) (yy : ℤ) c))) := by
  intro l
  induction l with
  | nil => intro acc; simp
  | cons xx t ih =>
    intro acc
    simp only [List.foldl_cons, List.flatMap_cons]
    rw [geojson_inner b x y zoom depth xx (List.range n) acc, ih, List.append_assoc]

theorem rzgrid_to_geojson_eq (rz : RZGrid) (x y : ℤ) (zoom depth : ℕ) :
    rzgrid_to_geojson rz x y zoom depth =
      (presentPairs (blockAt rz (zoom : ℤ) x y) (2 ^ depth)).map
        (fun t => boxOf x y zoom depth t.1 t.2.1 t.2.2) := by
  unfold rzgrid_to_geojson presentPairs
  rw [geojson_outer (blockAt rz (zoom : ℤ) x y) x y zoom depth (2 ^ depth)
    (List.range (2 ^ depth)) []]
  rw [List.nil_append, List.map_flatMap]
  congr 1
  funext xx
  rw [List.map_filterMap]
  congr 1
  funext yy
  rw [Option.map_map]
  rfl


theorem mem_presentPairs (b : Grid) (n : ℕ) (xx yy c : ℤ) :
    (xx, yy, c) ∈ presentPairs b n ↔
      0 ≤ xx ∧ xx < (n : ℤ) ∧ 0 ≤ yy ∧ yy < (n : ℤ) ∧ cellGet b xx yy = some c := by
  unfold presentPairs
  rw [List.mem_flatMap]
  constructor
  · rintro ⟨a, ha, hmem⟩
    rw [List.mem_range] at ha
    rw [List.mem_filterMap] at hmem
    obtain ⟨bb, hbb, heq⟩ := hmem
    rw [List.mem_range] at hbb
    cases hcell : cellGet b (a : ℤ) (bb : ℤ) with
    | none =>
      rw [hcell] at heq
      exact Option.noConfusion heq
    | some cv =>
      rw [hcell] at heq
      have heq2 : ((a : ℤ), (bb : ℤ), cv) = (xx, yy, c) := Option.some.inj heq
      have h1 : (a : ℤ) = xx := congrArg Prod.fst heq2
      have h2 : (bb : ℤ) = yy := congrArg Prod.fst (congrArg Prod.snd heq2)
      have h3 : cv = c := congrArg Prod.snd (congrArg Prod.snd heq2)
      refine ⟨by omega, by omega, by omega, by omega, ?_⟩
      rw [← h1, ← h2, hcell, h3]
  · rintro ⟨h1, h2, h3, h4, h5⟩
    refine ⟨xx.toNat, List.mem_range.2 (by omega), ?_⟩
    rw [List.mem_filterMap]
    refine ⟨yy.toNat, List.mem_range.2 (by omega), ?_⟩
    have hx : ((xx.toNat : ℕ) : ℤ) = xx := by omega
    have hy : ((yy.toNat : ℕ) : ℤ) = yy := by omega
    rw [hx, hy, h5]
    rfl


/-! ## Tile projector (exact real arithmetic) -/

theorem pyint_intCast (m : ℤ) : pyint (m : ℝ) = m := by
  unfold pyint
  by_cases h : (0 : ℝ) ≤ (m : ℝ)
  · rw [if_pos h, Int.floor_intCast]
  · rw [if_neg h, Int.ceil_intCast]

theorem mercator_unfold (s : ℝ) :
    Real.tan (Real.arctan s) + 1 / Real.cos (Real.arctan s) = s + Real.sqrt (1 + s ^ 2) := by
  rw [Real.tan_arctan, Real.cos_arctan, one_div_one_div]

theorem mercator_sinh (t : ℝ) :
    Real.sinh t + Real.sqrt (1 + Real.sinh t ^ 2) = Real.exp t := by
  have h1 : 1 + Real.sinh t ^ 2 = Real.cosh t ^ 2 := by
    rw [Real.cosh_sq]
    ring
  rw [h1, Real.sqrt_sq (Real.cosh_pos t).le, Real.sinh_add_cosh]

theorem slippy_round_trip (x y : ℤ) (z : ℕ) :
    slippy_tile_coordinates_from_point
      (point_from_slippy_tile_coordinates x y z).1
      (point_from_slippy_tile_coordinates x y z).2 z = (x, y) := by
  unfold slippy_tile_coordinates_from_point point_from_slippy_tile_coordinates
  simp only
  have hn : ((2 : ℝ) ^ z) ≠ 0 := by positivity
  have hpi := Real.pi_ne_zero
  rw [Prod.mk.injEq]
  constructor
  · have hx : ((x : ℝ) / 2 ^ z * 360 - 180 + 180) / 360 * 2 ^ z = (x : ℝ) := by
      field_simp
      ring
    rw [hx, pyint_intCast]
  · have hrad : Real.arctan (Real.sinh (Real.pi * (1 - 2 * (y : ℝ) / 2 ^ z))) * (180 / Real.pi) *
        (Real.pi / 180) = Real.arctan (Real.sinh (Real.pi * (1 - 2 * (y : ℝ) / 2 ^ z))) := by
      field_simp
    rw [hrad, mercator_unfold, mercator_sinh, Real.log_exp]
    have hy : (1 - Real.pi * (1 - 2 * (y : ℝ) / 2 ^ z) / Real.pi) / 2 * 2 ^ z = (y : ℝ) := by
      field_simp
      ring
    rw [hy, pyint_intCast]

theorem slippy_x_in_range {lon : ℝ} (h1 : -180 ≤ lon) (h2 : lon < 180) (z : ℕ) (lat : ℝ) :
    0 ≤ (slippy_tile_coordinates_from_point lon lat z).1 ∧
      (slippy_tile_coordinates_from_point lon lat z).1 < 2 ^ z := by
  unfold slippy_tile_coordinates_from_point
  simp only
  have hnpos : (0 : ℝ) < 2 ^ z := by positivity
  have harg0 : (0 : ℝ) ≤ (lon + 180) / 360 * 2 ^ z := by
    apply mul_nonneg _ hnpos.le
    apply div_nonneg _ (by norm_num)
    linarith
  have harg1 : (lon + 180) / 360 * 2 ^ z < 2 ^ z := by
    have hq : (lon + 180) / 360 < 1 := by
      rw [div_lt_one (by norm_num : (0:ℝ) < 360)]
      linarith
    calc (lon + 180) / 360 * 2 ^ z < 1 * 2 ^ z := by
          exact mul_lt_mul_of_pos_right hq hnpos
      _ = 2 ^ z := one_mul _
  unfold pyint
  rw [if_pos harg0]
  constructor
  · exact Int.floor_nonneg.2 harg0
  · rw [Int.floor_lt]
    push_cast
    exact harg1

theorem slippy_y_in_range (lon lat : ℝ) (z : ℕ)
    (hb1 : -Real.pi <
      Real.log (Real.tan (lat * (Real.pi / 180)) + 1 / Real.cos (lat * (Real.pi / 180))))
    (hb2 : Real.log (Real.tan (lat * (Real.pi / 180)) + 1 / Real.cos (lat * (Real.pi / 180)))
      ≤ Real.pi) :
    0 ≤ (slippy_tile_coordinates_from_point lon lat z).2 ∧
      (slippy_tile_coordinates_from_point lon lat z).2 < 2 ^ z := by
  unfold slippy_tile_coordinates_from_point
  simp only
  have hnpos : (0 : ℝ) < 2 ^ z := by positivity
  have hpi := Real.pi_pos
  set t := Real.log (Real.tan (lat * (Real.pi / 180)) + 1 / Real.cos (lat * (Real.pi / 180)))
    with ht
  have hq1 : t / Real.pi ≤ 1 := by
    rw [div_le_one hpi]
    exact hb2
  have hq2 : (-1 : ℝ) < t / Real.pi := by
    rw [lt_div_iff₀ hpi]
    linarith
  have harg0 : (0 : ℝ) ≤ (1 - t / Real.pi) / 2 * 2 ^ z := by
    apply mul_nonneg _ hnpos.le
    apply div_nonneg _ (by norm_num)
    linarith
  have harg1 : (1 - t / Real.pi) / 2 * 2 ^ z < 2 ^ z := by
    have hq : (1 - t / Real.pi) / 2 < 1 := by
      rw [div_lt_one (by norm_num : (0:ℝ) < 2)]
      linarith
    calc (1 - t / Real.pi) / 2 * 2 ^ z < 1 * 2 ^ z :=
          mul_lt_mul_of_pos_right hq hnpos
      _ = 2 ^ z := one_mul _
  unfold pyint
  rw [if_pos harg0]
  constructor
  · exact Int.floor_nonneg.2 harg0
  · rw [Int.floor_lt]
    push_cast
    exact harg1

theorem slippy_at_date_line : slippy_tile_coordinates_from_point 180 0 0 = (1, 0) := by
  unfold slippy_tile_coordinates_from_point
  simp only
  rw [Prod.mk.injEq]
  constructor
  · have h1 : ((180 : ℝ) + 180) / 360 * 2 ^ (0 : ℕ) = 1 := by norm_num
    rw [h1]
    have : ((1 : ℤ) : ℝ) = (1 : ℝ) := by norm_num
    rw [← this, pyint_intCast]
  · have h0 : (0 : ℝ) * (Real.pi / 180) = 0 := by ring
    rw [h0, Real.tan_zero, Real.cos_zero]
    have h1 : (0 : ℝ) + 1 / 1 = 1 := by norm_num
    rw [h1, Real.log_one]
    have h2 : (1 - 0 / Real.pi) / 2 * 2 ^ (0 : ℕ) = 1 / 2 := by
      rw [zero_div]
      norm_num
    rw [h2]
    unfold pyint
    rw [if_pos (by norm_num : (0:ℝ) ≤ 1 / 2)]
    rw [show ((0:ℤ)) = ⌊(1:ℝ)/2⌋ from ?_]
    rw [Int.floor_eq_zero_iff.2]
    constructor
    · norm_num
    · norm_num


/-! ## Option-level algebra of addCell -/

theorem addCell_none_left (o : Option ℤ) : addCell none o = o := by
  cases o with
  | none => rfl
  | some c => simp [addCell]

theorem addCell_comm (a b : Option ℤ) :
    addCell (addCell none a) b = addCell (addCell none b) a := by
  cases a with
  | none => cases b <;> simp [addCell]
  | some ca =>
    cases b with
    | none => simp [addCell]
    | some cb =>
      simp [addCell]
      ring

theorem addCell_assoc (a b c : Option ℤ) :
    addCell a (addCell b c) = addCell (addCell a b) c := by
  cases b with
  | none =>
    cases c with
    | none => rfl
    | some cc => cases a <;> simp [addCell]
  | some cb =>
    cases c with
    | none => rfl
    | some cc =>
      cases a with
      | none => simp [addCell]
      | some ca =>
        simp only [addCell, Option.getD_some]
        rw [Option.some.injEq]
        ring

theorem getD_addCell (a b : Option ℤ) :
    (addCell a b).getD 0 = a.getD 0 + b.getD 0 := by
  cases b with
  | none => simp [addCell]
  | some c => simp [addCell]

theorem present_iff_WF {g : Grid} (hs : gridSorted g) (hn : gridNE g) (u : ℤ) :
    (∃ p ∈ g, p.1 = u ∧ p.2 ≠ []) ↔ (alGet g u).isSome := by
  constructor
  · rintro ⟨p, hp, h1, _⟩
    have := alGet_eq_some_of_mem hs.1 (show (u, p.2) ∈ g by rw [← h1]; exact hp)
    rw [this]
    rfl
  · intro h
    cases hg : alGet g u with
    | none => rw [hg] at h; simp at h
    | some ys => exact ⟨(u, ys), alGet_mem hg, rfl, hn _ (alGet_mem hg)⟩

theorem grid_add_WF (gs : List Grid) : gridSorted (grid_add gs) ∧ gridNE (grid_add gs) := by
  unfold grid_add
  exact grid_add_sortedNE gs [] ⟨alSorted_nil, by simp⟩ (by intro p hp; simp at hp)

theorem cellGet_grid_add (gs : List Grid) (hgs : ∀ g ∈ gs, gridSorted g) (u v : ℤ) :
    cellGet (grid_add gs) u v =
      gs.foldl (fun o g => addCell o (cellGet g u v)) none := by
  unfold grid_add
  have := grid_add_cell_fold gs [] u v hgs
  rw [this]
  rfl

theorem present_grid_add (gs : List Grid) (u : ℤ) :
    (alGet (grid_add gs) u).isSome ↔ ∃ g ∈ gs, ∃ p ∈ g, p.1 = u ∧ p.2 ≠ [] := by
  unfold grid_add
  rw [grid_add_present_fold gs [] u]
  simp [alGet]

theorem getD_foldl_addCell :
    ∀ (os : List (Option ℤ)) (o : Option ℤ),
      (os.foldl addCell o).getD 0 = o.getD 0 + (os.map (fun a => a.getD 0)).sum := by
  intro os
  induction os with
  | nil => intro o; simp
  | cons a t ih =>
    intro o
    simp only [List.foldl_cons, List.map_cons, List.sum_cons]
    rw [ih, getD_addCell]
    ring


theorem present_grid_add_two (a b : Grid) (u : ℤ) :
    (∃ p ∈ grid_add [a, b], p.1 = u ∧ p.2 ≠ []) ↔
      (∃ p ∈ a, p.1 = u ∧ p.2 ≠ []) ∨ (∃ p ∈ b, p.1 = u ∧ p.2 ≠ []) := by
  rw [present_iff_WF (grid_add_WF [a, b]).1 (grid_add_WF [a, b]).2, present_grid_add]
  constructor
  · rintro ⟨gr, hgr, hp⟩
    rcases List.mem_cons.1 hgr with h | h
    · left; rw [← h]; exact hp
    · right
      rcases List.mem_cons.1 h with h' | h'
      · rw [← h']; exact hp
      · simp at h'
  · rintro (hp | hp)
    · exact ⟨a, List.mem_cons_self _ _, hp⟩
    · exact ⟨b, List.mem_cons_of_mem _ (List.mem_cons_self _ _), hp⟩

/-- C4: combining no grids yields the empty grid; combining one well-formed
grid reproduces it; `grid_add` is commutative on two grids and associative
on three; and each result cell carries the sum of that cell over all
inputs, with absent cells counting as 0. -/
theorem c4_grid_add_algebra (g a b c : Grid) (gs : List Grid)
    (hg : gridWF g) (ha : gridSorted a) (hb : gridSorted b) (hc : gridSorted c)
    (hgs : ∀ gr ∈ gs, gridSorted gr) :
    grid_add [g] = g ∧
    grid_add [a, b] = grid_add [b, a] ∧
    grid_add [grid_add [a, b], c] = grid_add [a, b, c] ∧
    grid_add [a, grid_add [b, c]] = grid_add [a, b, c] ∧
    grid_add [] = ([] : Grid) ∧
    (∀ x y, cellGetD (grid_add gs) x y = (gs.map (fun gr => cellGetD gr x y)).sum) := by
  have hWFab := grid_add_WF [a, b]
  have hWFbc := grid_add_WF [b, c]
  have hab : ∀ gr ∈ [a, b], gridSorted gr := by
    intro gr hgr
    rcases List.mem_cons.1 hgr with h | h
    · rw [h]; exact ha
    · rcases List.mem_cons.1 h with h' | h'
      · rw [h']; exact hb
      · simp at h'
  have hbc : ∀ gr ∈ [b, c], gridSorted gr := by
    intro gr hgr
    rcases List.mem_cons.1 hgr with h | h
    · rw [h]; exact hb
    · rcases List.mem_cons.1 h with h' | h'
      · rw [h']; exact hc
      · simp at h'
  have hba : ∀ gr ∈ [b, a], gridSorted gr := by
    intro gr hgr
    rcases List.mem_cons.1 hgr with h | h
    · rw [h]; exact hb
    · rcases List.mem_cons.1 h with h' | h'
      · rw [h']; exact ha
      · simp at h'
  have habc : ∀ gr ∈ [a, b, c], gridSorted gr := by
    intro gr hgr
    rcases List.mem_cons.1 hgr with h | h
    · rw [h]; exact ha
    · rcases List.mem_cons.1 h with h' | h'
      · rw [h']; exact hb
      · rcases List.mem_cons.1 h' with h2 | h2
        · rw [h2]; exact hc
        · simp at h2
  refine ⟨?_, ?_, ?_, ?_, rfl, ?_⟩
  · apply gridExtCells (grid_add_WF [g]).1 hg.1
    · intro x
      rw [present_grid_add, ← present_iff_WF hg.1 hg.2]
      constructor
      · rintro ⟨gr, hgr, hp⟩
        rcases List.mem_cons.1 hgr with h | h
        · exact h ▸ hp
        · simp at h
      · intro h
        exact ⟨g, List.mem_cons_self _ _, h⟩
    · intro x y
      rw [cellGet_grid_add [g] (by
        intro gr hgr
        rcases List.mem_cons.1 hgr with h | h
        · rw [h]; exact hg.1
        · simp at h) x y]
      simp only [List.foldl_cons, List.foldl_nil]
      rw [addCell_none_left]
  · apply gridExtCells (grid_add_WF [a, b]).1 (grid_add_WF [b, a]).1
    · intro x
      rw [present_grid_add, present_grid_add]
      constructor
      · rintro ⟨gr, hgr, hp⟩
        rcases List.mem_cons.1 hgr with h | h
        · exact ⟨a, List.mem_cons_of_mem _ (List.mem_cons_self _ _), h ▸ hp⟩
        · rcases List.mem_cons.1 h with h' | h'
          · exact ⟨b, List.mem_cons_self _ _, h' ▸ hp⟩
          · simp at h'
      · rintro ⟨gr, hgr, hp⟩
        rcases List.mem_cons.1 hgr with h | h
        · exact ⟨b, List.mem_cons_of_mem _ (List.mem_cons_self _ _), h ▸ hp⟩
        · rcases List.mem_cons.1 h with h' | h'
          · exact ⟨a, List.mem_cons_self _ _, h' ▸ hp⟩
          · simp at h'
    · intro x y
      rw [cellGet_grid_add [a, b] hab x y, cellGet_grid_add [b, a] hba x y]
      simp only [List.foldl_cons, List.foldl_nil]
      exact addCell_comm (cellGet a x y) (cellGet b x y)
  · have hXs : ∀ gr ∈ [grid_add [a, b], c], gridSorted gr := by
      intro gr hgr
      rcases List.mem_cons.1 hgr with h | h
      · rw [h]; exact hWFab.1
      · rcases List.mem_cons.1 h with h' | h'
        · rw [h']; exact hc
        · simp at h'
    apply gridExtCells (grid_add_WF _).1 (grid_add_WF _).1
    · intro x
      rw [present_grid_add, present_grid_add]
      constructor
      · rintro ⟨gr, hgr, hp⟩
        rcases List.mem_cons.1 hgr with h | h
        · rcases (present_grid_add_two a b x).1 (h ▸ hp) with h2 | h2
          · exact ⟨a, List.mem_cons_self _ _, h2⟩
          · exact ⟨b, List.mem_cons_of_mem _ (List.mem_cons_self _ _), h2⟩
        · rcases List.mem_cons.1 h with h' | h'
          · exact ⟨c, List.mem_cons_of_mem _
              (List.mem_cons_of_mem _ (List.mem_cons_self _ _)), h' ▸ hp⟩
          · simp at h'
      · rintro ⟨gr, hgr, hp⟩
        rcases List.mem_cons.1 hgr with h | h
        · exact ⟨grid_add [a, b], List.mem_cons_self _ _,
            (present_grid_add_two a b x).2 (Or.inl (h ▸ hp))⟩
        · rcases List.mem_cons.1 h with h' | h'
          · exact ⟨grid_add [a, b], List.mem_cons_self _ _,
              (present_grid_add_two a b x).2 (Or.inr (h' ▸ hp))⟩
          · rcases List.mem_cons.1 h' with h2 | h2
            · exact ⟨c, List.mem_cons_of_mem _ (List.mem_cons_self _ _), h2 ▸ hp⟩
            · simp at h2
    · intro x y
      rw [cellGet_grid_add _ hXs x y, cellGet_grid_add _ habc x y]
      simp only [List.foldl_cons, List.foldl_nil]
      rw [cellGet_grid_add _ hab x y]
      simp only [List.foldl_cons, List.foldl_nil]
      rw [addCell_none_left]
  · have hXs : ∀ gr ∈ [a, grid_add [b, c]], gridSorted gr := by
      intro gr hgr
      rcases List.mem_cons.1 hgr with h | h
      · rw [h]; exact ha
      · rcases List.mem_cons.1 h with h' | h'
        · rw [h']; exact hWFbc.1
        · simp at h'
    apply gridExtCells (grid_add_WF _).1 (grid_add_WF _).1
    · intro x
      rw [present_grid_add, present_grid_add]
      constructor
      · rintro ⟨gr, hgr, hp⟩
        rcases List.mem_cons.1 hgr with h | h
        · exact ⟨a, List.mem_cons_self _ _, h ▸ hp⟩
        · rcases List.mem_cons.1 h with h' | h'
          · rcases (present_grid_add_two b c x).1 (h' ▸ hp) with h2 | h2
            · exact ⟨b, List.mem_cons_of_mem _ (List.mem_cons_self _ _), h2⟩
            · exact ⟨c, List.mem_cons_of_mem _
                (List.mem_cons_of_mem _ (List.mem_cons_self _ _)), h2⟩
          · simp at h'
      · rintro ⟨gr, hgr, hp⟩
        rcases List.mem_cons.1 hgr with h | h
        · exact ⟨a, List.mem_cons_self _ _, h ▸ hp⟩
        · rcases List.mem_cons.1 h with h' | h'
          · exact ⟨grid_add [b, c], List.mem_cons_of_mem _ (List.mem_cons_self _ _),
              (present_grid_add_two b c x).2 (Or.inl (h' ▸ hp))⟩
          · rcases List.mem_cons.1 h' with h2 | h2
            · exact ⟨grid_add [b, c], List.mem_cons_of_mem _ (List.mem_cons_self _ _),
                (present_grid_add_two b c x).2 (Or.inr (h2 ▸ hp))⟩
            · simp at h2
    · intro x y
      rw [cellGet_grid_add _ hXs x y, cellGet_grid_add _ habc x y]
      simp only [List.foldl_cons, List.foldl_nil]
      rw [cellGet_grid_add _ hbc x y]
      simp only [List.foldl_cons, List.foldl_nil]
      rw [addCell_none_left, addCell_none_left, addCell_assoc]
  · intro x y
    unfold cellGetD
    rw [cellGet_grid_add gs hgs x y, ← List.foldl_map, getD_foldl_addCell, List.map_map]
    simp only [Option.getD_none, Function.comp]
    rw [zero_add]
    rfl


theorem c4_grid_add_algebra_witness :
    grid_add [[(((0 : ℤ)), [(((0 : ℤ)), ((5 : ℤ)))])]] = [(0, [(0, 5)])] ∧
    cellGetD (grid_add [[(((0 : ℤ)), [(((0 : ℤ)), ((2 : ℤ)))])],
      [(((0 : ℤ)), [(((0 : ℤ)), ((3 : ℤ)))])]]) 0 0 = 5 := by
  have h := c4_grid_add_algebra [(0, [(0, 5)])] [(0, [(0, 2)])] [(0, [(0, 3)])] []
      [[(0, [(0, 2)])], [(0, [(0, 3)])]]
      (by decide) (by decide) (by decide) (by decide) (by decide)
  refine ⟨h.1, ?_⟩
  rw [h.2.2.2.2.2 0 0]
  decide


/-! ## Positivity through the retile construction -/

theorem rzLevel2_pos {rz : RZGrid} (h : rzPos rz) (z : ℤ) :
    ∀ q ∈ (alGet rz z).getD [], ∀ r ∈ q.2, gridPos r.2 := by
  cases hz : alGet rz z with
  | none => intro q hq; simp at hq
  | some l1 => exact h (z, l1) (alGet_mem hz)

theorem rzLevel3_pos {rz : RZGrid} (h : rzPos rz) (z x : ℤ) :
    ∀ r ∈ (alGet ((alGet rz z).getD []) x).getD [], gridPos r.2 := by
  cases hx : alGet ((alGet rz z).getD []) x with
  | none => intro r hr; simp at hr
  | some l2 => exact rzLevel2_pos h z (x, l2) (alGet_mem hx)

theorem rzBlock_pos {rz : RZGrid} (h : rzPos rz) (z x y : ℤ) :
    gridPos ((alGet ((alGet ((alGet rz z).getD []) x).getD []) y).getD []) := by
  cases hy : alGet ((alGet ((alGet rz z).getD []) x).getD []) y with
  | none => intro p hp; simp at hp
  | some b => exact rzLevel3_pos h z x (y, b) (alGet_mem hy)

theorem rzPos_rz5Set {rz : RZGrid} (h : rzPos rz) {z x y sx sy c : ℤ} (hc : 0 < c) :
    rzPos (rz5Set rz z x y sx sy c) := by
  intro p hp
  rcases mem_alSet hp with h1 | h1
  · subst h1
    intro q hq
    rcases mem_alSet hq with h2 | h2
    · subst h2
      intro r hr
      rcases mem_alSet hr with h3 | h3
      · subst h3
        exact gridPos_gridSet (rzBlock_pos h z x y) hc
      · exact rzLevel3_pos h z x r h3
    · exact rzLevel2_pos h z q h2
  · exact h p h1

theorem rzPos_rzStepXY {fine : Grid} (hf : gridPos fine) (p z x y : ℤ)
    {rz : RZGrid} (h : rzPos rz) : rzPos (rzStepXY rz fine p z x y) := by
  unfold rzStepXY
  have outer : ∀ (t : Grid), (∀ q ∈ t, ∀ r ∈ q.2, 0 < r.2) → ∀ (acc : RZGrid), rzPos acc →
      rzPos (t.foldl (fun acc q => if q.1 < x * p ∨ (x + 1) * p - 1 < q.1 then acc
        else q.2.foldl (fun acc r => if r.1 < y * p ∨ (y + 1) * p - 1 < r.1 then acc
          else rz5Set acc z x y (q.1 - x * p) (r.1 - y * p) r.2) acc) acc) := by
    intro t
    induction t with
    | nil => intro _ acc h'; exact h'
    | cons q t' ih =>
      intro ht acc h'
      simp only [List.foldl_cons]
      have hinner : ∀ (ys : YCounts), (∀ r ∈ ys, 0 < r.2) → ∀ (acc' : RZGrid), rzPos acc' →
          rzPos (ys.foldl (fun acc r => if r.1 < y * p ∨ (y + 1) * p - 1 < r.1 then acc
            else rz5Set acc z x y (q.1 - x * p) (r.1 - y * p) r.2) acc') := by
        intro ys
        induction ys with
        | nil => intro _ acc' h''; exact h''
        | cons r t'' ih' =>
          intro hys acc' h''
          simp only [List.foldl_cons]
          apply ih' (fun s hs => hys s (List.mem_cons_of_mem _ hs))
          by_cases hcond : r.1 < y * p ∨ (y + 1) * p - 1 < r.1
          · rw [if_pos hcond]; exact h''
          · rw [if_neg hcond]
            exact rzPos_rz5Set h'' (hys r (List.mem_cons_self _ _))
      apply ih (fun s hs => ht s (List.mem_cons_of_mem _ hs))
      by_cases hcond : q.1 < x * p ∨ (x + 1) * p - 1 < q.1
      · rw [if_pos hcond]; exact h'
      · rw [if_neg hcond]
        exact hinner q.2 (fun r hr => ht q (List.mem_cons_self _ _) r hr) acc h'
  exact outer fine hf rz h

theorem rzPos_rzStepZ {zg : ZGrid} (hzg : zgPos zg) (depth : ℕ) {rz : RZGrid}
    (h : rzPos rz) (z : ℤ) : rzPos (rzStepZ zg depth rz z) := by
  unfold rzStepZ
  have hfine : gridPos (zgGet zg (z + depth)) := gridPos_zgGet hzg _
  have outer : ∀ (t : Grid) (acc : RZGrid), rzPos acc →
      rzPos (t.foldl (fun acc p => p.2.foldl
        (fun acc q => rzStepXY acc (zgGet zg (z + depth)) (2 ^ depth) z p.1 q.1) acc) acc) := by
    intro t
    induction t with
    | nil => intro acc h'; exact h'
    | cons p t' ih =>
      intro acc h'
      simp only [List.foldl_cons]
      apply ih
      have hinner : ∀ (ys : YCounts) (acc' : RZGrid), rzPos acc' →
          rzPos (ys.foldl
            (fun acc q => rzStepXY acc (zgGet zg (z + depth)) (2 ^ depth) z p.1 q.1) acc') := by
        intro ys
        induction ys with
        | nil => intro acc' h''; exact h''
        | cons q t'' ih' =>
          intro acc' h''
          simp only [List.foldl_cons]
          exact ih' _ (rzPos_rzStepXY hfine _ _ _ _ h'')
      exact hinner p.2 acc h'
  exact outer (zgGet zg z) rz h

theorem rzPos_rzgrid_from_zgrid {zg : ZGrid} (hzg : zgPos zg) (depth : ℕ) :
    rzPos (rzgrid_from_zgrid zg depth) := by
  unfold rzgrid_from_zgrid
  have hfold : ∀ (zs : List ℤ) (acc : RZGrid), rzPos acc →
      rzPos (zs.foldl (rzStepZ zg depth) acc) := by
    intro zs
    induction zs with
    | nil => intro acc h; exact h
    | cons z t ih =>
      intro acc h
      simp only [List.foldl_cons]
      exact ih _ (rzPos_rzStepZ hzg depth h z)
  exact hfold _ [] (by intro p hp; simp at hp)

/-- C5: sparsity invariant: grids built by `grid_from_crimes` and
`grid_add`, every pyramid level built by `zgrid_from_grid`, and every
retile block built by `rzgrid_from_zgrid` store only positive counts
(given inputs that do), so absence of a key is the only representation
of count 0. -/
theorem c5_sparsity (proj : ℝ × ℝ → ℤ × ℤ) (crimes : List (ℝ × ℝ))
    (gs : List Grid) (g : Grid) (zoom min_zoom : ℤ) (zg : ZGrid) (depth : ℕ)
    (hgs : ∀ gr ∈ gs, gridPos gr) (hg : gridPos g) (hzg : zgPos zg) :
    gridPos (grid_from_crimes proj crimes) ∧
    gridPos (grid_add gs) ∧
    zgPos (zgrid_from_grid g zoom min_zoom) ∧
    rzPos (rzgrid_from_zgrid zg depth) := by
  refine ⟨?_, ?_, zgrid_from_grid_pos hg zoom min_zoom, rzPos_rzgrid_from_zgrid hzg depth⟩
  · unfold grid_from_crimes
    exact gfc_fold_pos proj crimes [] (by intro p hp; simp at hp)
  · unfold grid_add
    exact grid_add_pos_fold gs [] (by intro p hp; simp at hp) hgs

theorem c5_sparsity_witness :
    gridPos (grid_from_crimes (fun _ => ((0 : ℤ), (0 : ℤ))) []) ∧
    gridPos (grid_add [[(((0 : ℤ)), [(((0 : ℤ)), ((2 : ℤ)))])]]) ∧
    zgPos (zgrid_from_grid [(((0 : ℤ)), [(((0 : ℤ)), ((5 : ℤ)))])] 2 0) ∧
    rzPos (rzgrid_from_zgrid [(((0 : ℤ)), [(((0 : ℤ)), [(((0 : ℤ)), ((5 : ℤ)))])])] 0) :=
  c5_sparsity (fun _ => ((0 : ℤ), (0 : ℤ))) [] [[(0, [(0, 2)])]] [(0, [(0, 5)])] 2 0
    [(0, [(0, [(0, 5)])])] 0 (by decide) (by decide) (by decide)


/-! ## Coarsening: iteration order and the floor-division reading -/

theorem coarsenIter_succ_coarsen :
    ∀ (k : ℕ) (f : Grid), coarsenIter (k + 1) f = coarsen (coarsenIter k f) := by
  intro k
  induction k with
  | zero => intro f; rfl
  | succ k ih => intro f; exact ih (coarsen f)

theorem coarsenFrom_eq_specFrom :
    ∀ (f : Grid), gridNonneg f → ∀ (acc : Grid), coarsenFrom acc f = coarsenSpecFrom acc f := by
  intro f
  induction f with
  | nil => intro _ acc; rfl
  | cons p t ih =>
    intro hf acc
    simp only [coarsenFrom, coarsenSpecFrom, List.foldl_cons]
    have hx : pydiv2 p.1 = p.1 / 2 := pydiv2_eq_ediv (hf p (List.mem_cons_self _ _)).1
    have hinner : ∀ (ys : YCounts), (∀ q ∈ ys, 0 ≤ q.1) → ∀ (a : Grid),
        ys.foldl (fun a q => gridInc a (pydiv2 p.1) (pydiv2 q.1) q.2) a =
          ys.foldl (fun a q => gridInc a (p.1 / 2) (q.1 / 2) q.2) a := by
      intro ys
      induction ys with
      | nil => intro _ a; rfl
      | cons q t' ih' =>
        intro hys a
        simp only [List.foldl_cons]
        have hhead : gridInc a (pydiv2 p.1) (pydiv2 q.1) q.2 =
            gridInc a (p.1 / 2) (q.1 / 2) q.2 := by
          rw [hx, pydiv2_eq_ediv (hys q (List.mem_cons_self _ _))]
        rw [hhead]
        exact ih' (fun r hr => hys r (List.mem_cons_of_mem _ hr)) _
    rw [hinner p.2 (fun q hq => (hf p (List.mem_cons_self _ _)).2 q hq) acc]
    have h2 := ih (fun r hr => hf r (List.mem_cons_of_mem _ hr))
      (p.2.foldl (fun a q => gridInc a (p.1 / 2) (q.1 / 2) q.2) acc)
    simp only [coarsenFrom, coarsenSpecFrom] at h2
    exact h2

theorem coarsen_eq_spec {f : Grid} (hf : gridNonneg f) : coarsen f = coarsenSpec f :=
  coarsenFrom_eq_specFrom f hf []

/-- C1 counterexample: with seed grid `{-1: {0: 5}}`, zoom 1 and min_zoom 0
(inputs the claim admits), the code's level 0 stores the count at x = 0 —
Python's `int(-1 / 2)` truncates toward zero — while the claimed rule
`floor(-1/2) = -1` (modelled by `coarsenSpec`) would store it at x = -1;
the two grids differ. -/
theorem c1_counterexample :
    zgGet (zgrid_from_grid [((-1 : ℤ), [((0 : ℤ), (5 : ℤ))])] 1 0) 0 = [(0, [(0, 5)])] ∧
    coarsenSpec [((-1 : ℤ), [((0 : ℤ), (5 : ℤ))])] = [(-1, [(0, 5)])] ∧
    zgGet (zgrid_from_grid [((-1 : ℤ), [((0 : ℤ), (5 : ℤ))])] 1 0) 0 ≠
      coarsenSpec [((-1 : ℤ), [((0 : ℤ), (5 : ℤ))])] :=
  ⟨by decide, by decide, by decide⟩

/-- C1 (amended): pyramid conservation holds — every level l of
`zgrid_from_grid g zoom min_zoom` with min_zoom ≤ l ≤ zoom carries the
seed grid's total count — and each level l-1 is the accumulation of each
level-l cell (x, y) into cell (int(x/2), int(y/2)) with truncation toward
zero (`coarsen`), which coincides with the claimed floor rule
(`coarsenSpec`) exactly on grids with non-negative coordinates. -/
theorem c1_pyramid_conservation {g : Grid} (hg : gridWF g) {zoom min_zoom l : ℤ}
    (hm : 0 ≤ min_zoom) (hmz : min_zoom < zoom) (h1 : min_zoom ≤ l) (h2 : l ≤ zoom) :
    gridSum (zgGet (zgrid_from_grid g zoom min_zoom) l) = gridSum g ∧
    (min_zoom ≤ l - 1 →
      zgGet (zgrid_from_grid g zoom min_zoom) (l - 1) =
        coarsen (zgGet (zgrid_from_grid g zoom min_zoom) l)) ∧
    (∀ f : Grid, gridNonneg f → coarsen f = coarsenSpec f) := by
  refine ⟨?_, ?_, fun f hf => coarsen_eq_spec hf⟩
  · rw [pyramid_level hg h1 h2]
    exact gridSum_coarsenIter _ g hg.1
  · intro hl
    rw [pyramid_level hg (by omega) (by omega), pyramid_level hg h1 h2]
    have hstep : (zoom - (l - 1)).toNat = (zoom - l).toNat + 1 := by omega
    rw [hstep, coarsenIter_succ_coarsen]

theorem c1_pyramid_conservation_witness :
    gridSum (zgGet (zgrid_from_grid [((0 : ℤ), [((0 : ℤ), (5 : ℤ))]), (1, [(1, 3)])] 2 0) 1) =
      gridSum [((0 : ℤ), [((0 : ℤ), (5 : ℤ))]), (1, [(1, 3)])] ∧
    zgGet (zgrid_from_grid [((0 : ℤ), [((0 : ℤ), (5 : ℤ))]), (1, [(1, 3)])] 2 0) 0 =
      coarsen (zgGet (zgrid_from_grid [((0 : ℤ), [((0 : ℤ), (5 : ℤ))]), (1, [(1, 3)])] 2 0) 1) := by
  have h := @c1_pyramid_conservation [((0 : ℤ), [((0 : ℤ), (5 : ℤ))]), (1, [(1, 3)])]
    (by decide) 2 0 1 (by decide) (by decide) (by decide) (by decide)
  exact ⟨h.1, h.2.1 (by decide)⟩

/-- C2 counterexample: the pyramid of seed `{-1: {0: 7}}` at zoom 1,
min_zoom 0 stores fine cell (-1, 0) with count 7 at level 1 = 0 +
zoom_depth, yet `rzgrid_from_zgrid` with zoom_depth 1 returns the empty
structure: the negative-coordinate fine cell falls inside no retile
block's scan window, so the union of the blocks at base zoom 0 does not
reproduce the fine grid. -/
theorem c2_counterexample :
    cellGet (zgGet (zgrid_from_grid [((-1 : ℤ), [((0 : ℤ), (7 : ℤ))])] 1 0) 1) (-1) 0 =
      some 7 ∧
    rzgrid_from_zgrid (zgrid_from_grid [((-1 : ℤ), [((0 : ℤ), (7 : ℤ))])] 1 0) 1 = [] :=
  ⟨by decide, by decide⟩

/-- C2 (amended): partition conservation on non-negative grids: for every
base zoom z with min_zoom ≤ z ≤ zoom - zoom_depth, sub-cell (sx, sy) of
retile block (z, x, y) holds exactly the fine cell
(x·2^depth + sx, y·2^depth + sy) of pyramid level z + depth when (sx, sy)
lies in the 2^depth × 2^depth window, and nothing otherwise — so every
fine cell appears in exactly one block, with its count. -/
theorem c2_partition_conservation {g : Grid} (hg : gridWF g) (hnn : gridNonneg g)
    {zoom min_zoom z : ℤ} (hm : 0 ≤ min_zoom) (hmz : min_zoom < zoom)
    {depth : ℕ} (hd : (depth : ℤ) ≤ zoom - min_zoom) (hz1 : min_zoom ≤ z)
    (hz2 : z ≤ zoom - depth) (x y sx sy : ℤ) :
    rzGet (rzgrid_from_zgrid (zgrid_from_grid g zoom min_zoom) depth) z x y sx sy =
      if 0 ≤ sx ∧ sx < 2 ^ depth ∧ 0 ≤ sy ∧ sy < 2 ^ depth then
        cellGet (zgGet (zgrid_from_grid g zoom min_zoom) (z + depth))
          (x * 2 ^ depth + sx) (y * 2 ^ depth + sy)
      else none := by
  have hsAll : zgSortedAll (zgrid_from_grid g zoom min_zoom) := pyramid_sorted_levels hg hmz
  rw [rzGet_rzgrid_from_zgrid _ depth hsAll z x y sx sy, pyramid_keyMax hg hmz]
  have hfine : zgGet (zgrid_from_grid g zoom min_zoom) (z + depth) =
      coarsenIter (zoom - (z + depth)).toNat g := pyramid_level hg (by omega) (by omega)
  have hcoarse : zgGet (zgrid_from_grid g zoom min_zoom) z =
      coarsenIter (zoom - z).toNat g := pyramid_level hg (by omega) (by omega)
  have hcc : coarsenIter (zoom - z).toNat g =
      coarsenIter depth (coarsenIter (zoom - (z + depth)).toNat g) := by
    have hsum : (zoom - z).toNat = (zoom - (z + depth)).toNat + depth := by omega
    rw [hsum]
    exact coarsenIter_add _ depth g
  have hnnF : gridNonneg (coarsenIter (zoom - (z + depth)).toNat g) :=
    gridNonneg_coarsenIter _ g hnn
  rw [hfine, hcoarse, hcc]
  by_cases hpres :
      (cellGet (coarsenIter depth (coarsenIter (zoom - (z + depth)).toNat g)) x y).isSome = true
  · have hcond : 0 ≤ z ∧ z ≤ zoom - (depth : ℤ) ∧
        (cellGet (coarsenIter depth (coarsenIter (zoom - (z + depth)).toNat g)) x y).isSome
          = true := ⟨by omega, by omega, hpres⟩
    rw [if_pos hcond]
    unfold blockGet
    by_cases hin : 0 ≤ sx ∧ sx < 2 ^ depth ∧ 0 ≤ sy ∧ sy < 2 ^ depth
    · have hout : ¬ (sx < 0 ∨ (2 : ℤ) ^ depth - 1 < sx ∨ sy < 0 ∨ (2 : ℤ) ^ depth - 1 < sy) := by
        omega
      rw [if_neg hout, if_pos hin]
    · have hout : sx < 0 ∨ (2 : ℤ) ^ depth - 1 < sx ∨ sy < 0 ∨ (2 : ℤ) ^ depth - 1 < sy := by
        omega
      rw [if_pos hout, if_neg hin]
  · have hcond : ¬ (0 ≤ z ∧ z ≤ zoom - (depth : ℤ) ∧
        (cellGet (coarsenIter depth (coarsenIter (zoom - (z + depth)).toNat g)) x y).isSome
          = true) := fun h => hpres h.2.2
    rw [if_neg hcond]
    by_cases hin : 0 ≤ sx ∧ sx < 2 ^ depth ∧ 0 ≤ sy ∧ sy < 2 ^ depth
    · rw [if_pos hin]
      cases hcf : cellGet (coarsenIter (zoom - (z + depth)).toNat g)
          (x * 2 ^ depth + sx) (y * 2 ^ depth + sy) with
      | none => rfl
      | some c =>
        exfalso
        obtain ⟨hu, hv⟩ := cellGet_some_nonneg hnnF hcf
        have h2p : (0 : ℤ) < 2 ^ depth := by positivity
        have hx0 : 0 ≤ x := by
          by_contra hx
          have hxle : x ≤ -1 := by omega
          have hmul : x * 2 ^ depth ≤ (-1) * 2 ^ depth :=
            mul_le_mul_of_nonneg_right hxle h2p.le
          omega
        have hy0 : 0 ≤ y := by
          by_contra hy
          have hyle : y ≤ -1 := by omega
          have hmul : y * 2 ^ depth ≤ (-1) * 2 ^ depth :=
            mul_le_mul_of_nonneg_right hyle h2p.le
          omega
        have hanc := coarsenIter_present depth (coarsenIter (zoom - (z + depth)).toNat g)
          (by rw [hcf]; rfl)
        rw [pydiv2iter_window depth hx0 hin.1 hin.2.1,
          pydiv2iter_window depth hy0 hin.2.2.1 hin.2.2.2] at hanc
        exact hpres hanc
    · rw [if_neg hin]

theorem c2_partition_conservation_witness :
    rzGet (rzgrid_from_zgrid
        (zgrid_from_grid [((0 : ℤ), [((0 : ℤ), (5 : ℤ))]), (1, [(1, 3)])] 2 0) 1)
      1 0 0 1 1 = some 3 := by
  have h := @c2_partition_conservation [((0 : ℤ), [((0 : ℤ), (5 : ℤ))]), (1, [(1, 3)])]
    (by decide) (by decide) 2 0 1 (by decide) (by decide) 1 (by decide) (by decide) (by decide)
    0 0 1 1
  rw [h]
  decide

/-- C3: round-trip law: for every zoom z and tile coordinate (x, y) with
0 ≤ x < 2^z and 0 ≤ y < 2^z, projecting the tile's north-west corner
`point_from_slippy_tile_coordinates x y z` back through
`slippy_tile_coordinates_from_point` at the same zoom returns exactly
(x, y) (the corner lands on the tile boundary, which truncates forward to
the same tile; exact real arithmetic). -/
theorem c3_round_trip (x y : ℤ) (z : ℕ) (hx1 : 0 ≤ x) (hx2 : x < 2 ^ z)
    (hy1 : 0 ≤ y) (hy2 : y < 2 ^ z) :
    slippy_tile_coordinates_from_point
      (point_from_slippy_tile_coordinates x y z).1
      (point_from_slippy_tile_coordinates x y z).2 z = (x, y) :=
  slippy_round_trip x y z

theorem c3_round_trip_witness :
    slippy_tile_coordinates_from_point
      (point_from_slippy_tile_coordinates 1 2 2).1
      (point_from_slippy_tile_coordinates 1 2 2).2 2 = (1, 2) :=
  c3_round_trip 1 2 2 (by decide) (by decide) (by decide) (by decide)

/-- C6: the code of `grid_from_crimes` has no polar-point handling at all:
every record is projected and counted, so the grid total always equals the
full record count — a record at latitude ±90 is not skipped (and in Python
the unguarded `math.log`/`math.cos` evaluation can raise, aborting the
batch, with no warning logged). -/
theorem c6_counts_every_record (proj : ℝ × ℝ → ℤ × ℤ) (crimes : List (ℝ × ℝ)) :
    gridSum (grid_from_crimes proj crimes) = crimes.length := by
  unfold grid_from_crimes
  have h := gfc_fold_sorted_sum proj crimes [] ⟨alSorted_nil, by simp⟩
  rw [h.2]
  simp [gridSum]


/-- C7 counterexample: the pyramid of seed `{0: {0: 5}}` at zoom 3 with
min_zoom 2 has levels {2, 3}, so its available depth max - min is 1; with
zoom_depth 2 the claim demands an error, yet the code's assertion
`max(zgrid.keys()) - zoom_depth >= 0` (here 3 - 2 = 1 ≥ 0) passes and the
call returns normally. -/
theorem c7_counterexample :
    rzgrid_from_zgrid_ok (zgrid_from_grid [((0 : ℤ), [((0 : ℤ), (5 : ℤ))])] 3 2) 2 = true ∧
    keyMax (zgrid_from_grid [((0 : ℤ), [((0 : ℤ), (5 : ℤ))])] 3 2) -
      keyMin (zgrid_from_grid [((0 : ℤ), [((0 : ℤ), (5 : ℤ))])] 3 2) < 2 :=
  ⟨by decide, by decide⟩

/-- C7 (amended): `zgrid_from_grid`'s assertions pass exactly when
0 ≤ min_zoom < zoom (it raises `AssertionError` otherwise, never clamps),
and `rzgrid_from_zgrid`'s assertion passes exactly when
zoom_depth ≤ max(zgrid.keys()) — the guard measures the depth from the
pyramid's top level down to absolute zoom 0, not down to the pyramid's
minimum level as the claim states. -/
theorem c7_preconditions (zoom min_zoom : ℤ) (zg : ZGrid) (depth : ℕ) :
    (zgrid_from_grid_ok zoom min_zoom = true ↔ 0 ≤ min_zoom ∧ min_zoom < zoom) ∧
    (rzgrid_from_zgrid_ok zg depth = true ↔ (depth : ℤ) ≤ keyMax zg) := by
  constructor
  · unfold zgrid_from_grid_ok
    simp only [Bool.and_eq_true, decide_eq_true_eq]
    tauto
  · unfold rzgrid_from_zgrid_ok
    simp only [decide_eq_true_eq]
    omega

/-- C8 counterexample: the pyramid of seed `{0: {0: 5}}` at zoom 2 with
min_zoom 1 has no level 0, but after `rzgrid_from_zgrid` runs with
zoom_depth 1 its loop has read `zgrid[0]`, and the defaultdict input now
carries the new key 0 bound to an empty dict: the input is not left
unchanged. -/
theorem c8_counterexample :
    alGet (zgrid_from_grid [((0 : ℤ), [((0 : ℤ), (5 : ℤ))])] 2 1) 0 = none ∧
    alGet (rzgrid_from_zgrid_inputAfter
      (zgrid_from_grid [((0 : ℤ), [((0 : ℤ), (5 : ℤ))])] 2 1) 1) 0 = some [] :=
  ⟨by decide, by decide⟩

/-- C8 (amended): the mutation the defaultdict reads inflict on the inputs
is vivification only: after `rzgrid_from_zgrid` every level of the input
pyramid is either untouched or newly bound to an empty dict (no stored
count is added, removed or modified), and the paths `rzgrid_to_geojson`
vivifies in its input leave every stored sub-cell count unchanged. -/
theorem c8_input_vivification (zg : ZGrid) (depth : ℕ) (rz : RZGrid) (x y zoom : ℤ) :
    (∀ l : ℤ, alGet (rzgrid_from_zgrid_inputAfter zg depth) l = alGet zg l ∨
      (alGet zg l = none ∧ alGet (rzgrid_from_zgrid_inputAfter zg depth) l = some [])) ∧
    (∀ z' x' y' sx' sy' : ℤ,
      rzGet (rzgrid_to_geojson_inputAfter rz x y zoom depth) z' x' y' sx' sy' =
        rzGet rz z' x' y' sx' sy') :=
  ⟨rz_inputAfter_levels zg depth, fun z' x' y' sx' sy' =>
    rzGet_geojson_inputAfter rz x y zoom depth z' x' y' sx' sy'⟩

theorem presentPairs_keys_distinct (b : Grid) (n : ℕ) :
    (presentPairs b n).Pairwise (fun s t : ℤ × ℤ × ℤ => s.1 ≠ t.1 ∨ s.2.1 ≠ t.2.1) := by
  unfold presentPairs
  rw [List.pairwise_flatMap]
  constructor
  · intro a _
    rw [List.pairwise_filterMap]
    apply List.Pairwise.imp ?_ (List.pairwise_lt_range n)
    intro yy yy' hlt bq hbq bq' hbq'
    cases hc : cellGet b (a : ℤ) (yy : ℤ) with
    | none => rw [hc] at hbq; simp at hbq
    | some c =>
      rw [hc] at hbq
      simp at hbq
      cases hc' : cellGet b (a : ℤ) (yy' : ℤ) with
      | none => rw [hc'] at hbq'; simp at hbq'
      | some c' =>
        rw [hc'] at hbq'
        simp at hbq'
        subst hbq
        subst hbq'
        right
        intro hcontra
        simp only at hcontra
        omega
  · apply List.Pairwise.imp ?_ (List.pairwise_lt_range n)
    intro a a' hlt bq hbq bq' hbq'
    rw [List.mem_filterMap] at hbq hbq'
    obtain ⟨yy, _, hG⟩ := hbq
    obtain ⟨yy', _, hG'⟩ := hbq'
    cases hc : cellGet b (a : ℤ) (yy : ℤ) with
    | none => rw [hc] at hG; simp at hG
    | some c =>
      rw [hc] at hG
      simp at hG
      cases hc' : cellGet b (a' : ℤ) (yy' : ℤ) with
      | none => rw [hc'] at hG'; simp at hG'
      | some c' =>
        rw [hc'] at hG'
        simp at hG'
        subst hG
        subst hG'
        left
        intro hcontra
        simp only at hcontra
        omega

/-- C9: renderer emission: `rzgrid_to_geojson` returns exactly one
rectangle (`boxOf`, the (xx, yy) slot of the 2^depth × 2^depth uniform
subdivision of the tile's bounding box, annotated with the stored count)
per sub-cell present in block (zoom, x, y); membership among the emitted
sub-cells is exactly presence in the block within the scan window, and no
(xx, yy) slot is emitted twice — in particular nothing is emitted for
absent sub-cells. -/
theorem c9_renderer_emission (rz : RZGrid) (x y : ℤ) (zoom depth : ℕ) :
    rzgrid_to_geojson rz x y zoom depth =
      (presentPairs (blockAt rz (zoom : ℤ) x y) (2 ^ depth)).map
        (fun t => boxOf x y zoom depth t.1 t.2.1 t.2.2) ∧
    (∀ xx yy c : ℤ,
      (xx, yy, c) ∈ presentPairs (blockAt rz (zoom : ℤ) x y) (2 ^ depth) ↔
        0 ≤ xx ∧ xx < ((2 ^ depth : ℕ) : ℤ) ∧ 0 ≤ yy ∧ yy < ((2 ^ depth : ℕ) : ℤ) ∧
          cellGet (blockAt rz (zoom : ℤ) x y) xx yy = some c) ∧
    (presentPairs (blockAt rz (zoom : ℤ) x y) (2 ^ depth)).Pairwise
      (fun s t => s.1 ≠ t.1 ∨ s.2.1 ≠ t.2.1) :=
  ⟨rzgrid_to_geojson_eq rz x y zoom depth,
   fun xx yy c => mem_presentPairs (blockAt rz (zoom : ℤ) x y) (2 ^ depth) xx yy c,
   presentPairs_keys_distinct (blockAt rz (zoom : ℤ) x y) (2 ^ depth)⟩

/-- C10 counterexample: the claim admits lon = 180, but at zoom 0 the code
maps (180, 0) to tile x = 1, outside the claimed range [0, 2^0) = [0, 1):
the date-line longitude is neither clamped nor rejected. -/
theorem c10_counterexample :
    slippy_tile_coordinates_from_point 180 0 0 = (1, 0) ∧
    ¬ ((slippy_tile_coordinates_from_point 180 0 0).1 < 2 ^ (0 : ℕ)) :=
  ⟨slippy_at_date_line, by rw [slippy_at_date_line]; decide⟩

/-- C10 (amended): on the half-open longitude range -180 ≤ lon < 180 and
for latitudes whose Mercator ordinate log(tan φ + 1/cos φ) lies in
(-π, π], the computed tile indices satisfy 0 ≤ x < 2^zoom and
0 ≤ y < 2^zoom; the code clamps nothing, so the boundary point lon = 180
yields x = 2^zoom, one past the range. -/
theorem c10_tile_range {lon lat : ℝ} (z : ℕ) (h1 : -180 ≤ lon) (h2 : lon < 180)
    (hb1 : -Real.pi <
      Real.log (Real.tan (lat * (Real.pi / 180)) + 1 / Real.cos (lat * (Real.pi / 180))))
    (hb2 : Real.log (Real.tan (lat * (Real.pi / 180)) + 1 / Real.cos (lat * (Real.pi / 180)))
      ≤ Real.pi) :
    0 ≤ (slippy_tile_coordinates_from_point lon lat z).1 ∧
    (slippy_tile_coordinates_from_point lon lat z).1 < 2 ^ z ∧
    0 ≤ (slippy_tile_coordinates_from_point lon lat z).2 ∧
    (slippy_tile_coordinates_from_point lon lat z).2 < 2 ^ z := by
  obtain ⟨hx1, hx2⟩ := slippy_x_in_range h1 h2 z lat
  obtain ⟨hy1, hy2⟩ := slippy_y_in_range lon lat z hb1 hb2
  exact ⟨hx1, hx2, hy1, hy2⟩

theorem c10_tile_range_witness :
    0 ≤ (slippy_tile_coordinates_from_point 0 0 0).1 ∧
    (slippy_tile_coordinates_from_point 0 0 0).1 < 2 ^ (0 : ℕ) ∧
    0 ≤ (slippy_tile_coordinates_from_point 0 0 0).2 ∧
    (slippy_tile_coordinates_from_point 0 0 0).2 < 2 ^ (0 : ℕ) := by
  have hlog : Real.log (Real.tan ((0 : ℝ) * (Real.pi / 180)) +
      1 / Real.cos ((0 : ℝ) * (Real.pi / 180))) = 0 := by
    rw [zero_mul, Real.tan_zero, Real.cos_zero]
    norm_num
  exact c10_tile_range 0 (by norm_num) (by norm_num)
    (by rw [hlog]; linarith [Real.pi_pos])
    (by rw [hlog]; exact Real.pi_pos.le)

end CrimeDB
